import Mathlib

/-!
Verification development for the JTune GC-analysis tool (`jtune.py`).

The development is a shallow embedding of the analysis core:
  * the stanza parser `GCRecord._parse_record` (class `GCRecord`),
  * the accumulation loop of `_at_exit` (restart detection),
  * the aggregation pieces of `_run_analysis` (young-gen allocation and
    growth rates, survivor death rates),
  * the sizing pieces of `_get_survivor_info` and `_show_recommendations`
    (survivor-ratio clamp, live-data estimate, heap sizing),
  * the `_min` / `_max` statistics helpers.

Modelling conventions:
  * Python `float` and `decimal.Decimal` values are embedded as `ℚ`.
    All concrete inputs used in theorems are small decimal literals, on
    which `float` arithmetic and comparisons are exact, so the embedding
    is faithful at every input a proof evaluates.
  * Byte sizes are embedded as `ℤ` (they mix with the sentinel `-1`).
  * Python `None`-able attributes are embedded as `Option _`; Python 2
    mixed-type comparisons (`None < 300` is true, `None > x` is false
    for numeric `x`) are embedded by explicit helper functions.
  * Regular-expression matching on raw log lines is abstracted: a `Line`
    records, for each regex the parser applies, whether/what it would
    match.  The anchored `re.match` patterns of `_parse_record` are
    pairwise mutually exclusive on any actual string, so they are
    embedded as one `MainMatch`; the substring tests and the
    `re.search` for a trailing `"<f> secs] "` can co-occur with
    anything and are separate fields.
  * An uncaught Python exception is embedded as `Except.error`.
-/

/-- Python 2 truthiness of an optional number (`None` and `0` are falsy). -/
def pyTruthyQ : Option ℚ → Bool
  | none => false
  | some q => q ≠ 0

/-- Python 2 truthiness of an optional integer (`None` and `0` are falsy). -/
def pyTruthyZ : Option ℤ → Bool
  | none => false
  | some z => z ≠ 0

/-- Python 2 truthiness of an optional string (`None` and `""` are falsy). -/
def pyTruthyS : Option String → Bool
  | none => false
  | some s => s ≠ ""

/-- Python 2 comparison `x < (n : number)` where `x` may be `None`:
`None` compares below every number. -/
def pyLtQ (x : Option ℚ) (n : ℚ) : Bool :=
  match x with
  | none => true
  | some q => q < n

/-- Python 2 comparison `a > b` on optional numbers (`None` is below every
number, and `None > None` is false). -/
def pyGtQ : Option ℚ → Option ℚ → Bool
  | none, _ => false
  | some _, none => true
  | some a, some b => a > b

/-- Python 2 comparison `a > b` where `a` is an optional integer:
used for `record.og_used > 0` and `first.og_used > second.og_used`. -/
def pyGtZ : Option ℤ → Option ℤ → Bool
  | none, _ => false
  | some _, none => true
  | some a, some b => a > b

/-- Python list indexing semantics for assignment `l[i] = x`: a negative
index wraps around from the end; out of range is an `IndexError` (`none`). -/
def pySetIdx {α : Type} (l : List α) (i : ℤ) (x : α) : Option (List α) :=
  if 0 ≤ i ∧ i < l.length then some (l.set i.toNat x)
  else if -(l.length : ℤ) ≤ i ∧ i < 0 then some (l.set (i + l.length).toNat x)
  else none

/-- Python list indexing semantics for reading `l[i]`: a negative index
wraps around from the end; out of range is an `IndexError` (`none`). -/
def pyGetIdx {α : Type} (l : List α) (i : ℤ) : Option α :=
  if 0 ≤ i ∧ i < l.length then l.get? i.toNat
  else if -(l.length : ℤ) ≤ i ∧ i < 0 then l.get? (i + l.length).toNat
  else none

/-- The `_min` helper of `jtune.py`: `min(values)`, except that the
`ValueError` raised on an empty sequence is caught and `0` returned. -/
def jtMin {α : Type} [LinearOrder α] [Zero α] : List α → α
  | [] => 0
  | a :: l => l.foldl min a

/-- The `_max` helper of `jtune.py`: `max(values)`, except that the
`ValueError` raised on an empty sequence is caught and `0` returned. -/
def jtMax {α : Type} [LinearOrder α] [Zero α] : List α → α
  | [] => 0
  | a :: l => l.foldl max a

/-- The `sec_diff` helper: number of seconds between two timestamps
(timestamps are embedded directly as rational seconds). -/
def secDiff (firstTime secondTime : ℚ) : ℚ :=
  secondTime - firstTime

/-- Result of the anchored `re.match` patterns that `_parse_record` tries
on a line.  On any actual string at most one of these anchored patterns
can match, so they are embedded as a single sum:
  * `uptime t ty` — `^<date>T<time><tz>: (t): .*\[(ty)`,
  * `threshold dss ct mt` — `^Desired survivor size (dss) bytes, new
    threshold (ct) (max (mt))`,
  * `age a bytes total` — `^- age (a): (bytes) bytes, (total) total`,
  * `realloc ...` — `^: (yb)K->(ya)K((yt)K), (ysecs) secs] (hb)K->(ha)K((ht)K),
    (tsecs) secs]` (sizes are the raw numbers from the log, in KiB). -/
inductive MainMatch : Type
  | none : MainMatch
  | uptime (t : ℚ) (gcType : String) : MainMatch
  | threshold (dss ct mt : ℕ) : MainMatch
  | age (a : ℕ) (bytes total : ℕ) : MainMatch
  | realloc (yb ya yt : ℕ) (ysecs : ℚ) (hb ha ht : ℕ) (tsecs : ℚ) : MainMatch
deriving DecidableEq, Repr

/-- Abstraction of one raw log line, recording the outcome of every
regex / substring test `_parse_record` can apply to it:
  * the four substring tests (`"CMS Initial Mark" in line` etc.),
  * `sweepMatch` — the full `re.match` for a `CMS-concurrent-sweep` line,
    giving (JVM uptime, sweep seconds),
  * `secsSearch` — the `re.search(r", ([\d\.]+) secs\] ", line)` used on
    the last line of a stop-the-world stanza,
  * `main` — the anchored `re.match` patterns (mutually exclusive). -/
structure Line : Type where
  hasCMSInitialMark : Bool := false
  hasCMSFinalRemark : Bool := false
  hasFullGC : Bool := false
  hasConcSweep : Bool := false
  sweepMatch : Option (ℚ × ℚ) := none
  secsSearch : Option ℚ := none
  main : MainMatch := .none
deriving DecidableEq, Repr

/-- The `GCRecord` data model: one attribute per instance attribute set in
`GCRecord.__init__` / `_parse_record` (the raw stanza text is not kept). -/
structure GCRecord : Type where
  is_cms_gc : Bool := false
  is_stw_gc : Bool := false
  cms_sweep_time : Option ℚ := none
  valid_record : Bool := false
  record_timestamp : ℚ := 0
  jvm_running_time : Option ℚ := none
  gc_type : Option String := none
  desired_survivor_size : Option ℤ := none
  curr_threshold : Option ℤ := none
  max_threshold : Option ℤ := none
  ages : List (ℤ × ℤ × ℤ) := []
  young_size_before_gc : Option ℤ := none
  young_size_after_gc : Option ℤ := none
  young_size_total : Option ℤ := none
  young_gc_time : ℚ := 0
  total_heap_before_gc : Option ℤ := none
  total_heap_after_gc : Option ℤ := none
  total_heap : Option ℤ := none
  total_gc_time : ℚ := 0
  og_used : Option ℤ := none
  stw_time : ℚ := 0
deriving DecidableEq, Repr

/-- The record state right after `GCRecord.__init__` sets the defaults,
before `_parse_record` runs. -/
def initRecord (ts : ℚ) : GCRecord :=
  { record_timestamp := ts }

/-- Python exceptions that can escape `_parse_record`. -/
inductive PyExc : Type
  | indexError : PyExc
deriving DecidableEq, Repr

/-- Decidable equality for embedded parse results. -/
instance {ε α : Type} [DecidableEq ε] [DecidableEq α] : DecidableEq (Except ε α) := fun a b =>
  match a, b with
  | .ok x, .ok y => decidable_of_iff (x = y) (by simp)
  | .error e, .error f => decidable_of_iff (e = f) (by simp)
  | .ok _, .error _ => isFalse (by simp)
  | .error _, .ok _ => isFalse (by simp)

/-- The `re.search(r", ([\d\.]+) secs\] ", record_array[-1])` applied by the
three stop-the-world blocks; `record_array[-1]` is only evaluated under an
`any(...)` guard, hence on a nonempty stanza. -/
def lastSecs (lines : List Line) : Option ℚ :=
  (lines.getLast?).bind (·.secsSearch)

/-- The three stop-the-world blocks at the top of `_parse_record`: each
scans the stanza for its marker substring and, when the trailing
`"<f> secs] "` search on the last line matches, marks the record as a
valid stop-the-world record and accumulates the pause into `stw_time`. -/
def stwPhase (lines : List Line) (r : GCRecord) : GCRecord :=
  let r :=
    if lines.any (·.hasCMSInitialMark) then
      match lastSecs lines with
      | some s =>
          { r with gc_type := some "CMS-STW", is_stw_gc := true,
                   valid_record := true, stw_time := r.stw_time + s }
      | none => r
    else r
  let r :=
    if lines.any (·.hasCMSFinalRemark) then
      match lastSecs lines with
      | some s =>
          { r with gc_type := some "CMS-STW", is_stw_gc := true,
                   valid_record := true, stw_time := r.stw_time + s }
      | none => r
    else r
  if lines.any (·.hasFullGC) then
    match lastSecs lines with
    | some s =>
        { r with gc_type := some "FULL", is_stw_gc := true,
                 valid_record := true, stw_time := r.stw_time + s }
    | none => r
  else r

/-- One update of the record by the realloc-stats line (`: yb K-> ...`);
sizes in the log are KiB and the parser multiplies them by 1024,
`og_used` is derived as `total_heap_after_gc - young_size_after_gc`. -/
def applyRealloc (r : GCRecord) (yb ya yt : ℕ) (ysecs : ℚ)
    (hb ha ht : ℕ) (tsecs : ℚ) : GCRecord :=
  { r with
    young_size_before_gc := some ((yb : ℤ) * 1024),
    young_size_after_gc := some ((ya : ℤ) * 1024),
    young_size_total := some ((yt : ℤ) * 1024),
    young_gc_time := ysecs,
    total_heap_before_gc := some ((hb : ℤ) * 1024),
    total_heap_after_gc := some ((ha : ℤ) * 1024),
    total_heap := some ((ht : ℤ) * 1024),
    total_gc_time := tsecs,
    og_used := some ((ha : ℤ) * 1024 - (ya : ℤ) * 1024) }

/-- Result of one iteration of the `_parse_record` per-line loop: `brk`
embeds a `break` (with the record as left behind), `cont` a fall-through
or `continue` with the updated record, `err` an uncaught exception. -/
inductive StepRes : Type
  | brk (r : GCRecord) : StepRes
  | cont (r : GCRecord) : StepRes
  | err (e : PyExc) : StepRes
deriving DecidableEq, Repr

/-- One iteration of the per-line loop of `_parse_record` (the loop is
entered only when the record was not classified stop-the-world).  The
blocks mirror the Python loop body, in source order:
  1. a line containing `"CMS-concurrent-sweep: "` classifies the record
     (when its full regex matches) and `break`s either way;
  2. while uptime and GC type are still falsy, the timestamp-prefix match
     sets them (no `continue`: the same line falls through);
  3. while the survivor-threshold fields are still falsy, the
     `Desired survivor size` match fills them, appends `(age, -1, -1)`
     sentinels to `ages` for ages `1..mt`, and `continue`s;
  4. `if self.jvm_running_time < 300` (Python 2: `None < 300` is true)
     invalidates the record and `break`s;
  5. an age line assigns `self.ages[age - 1]` (Python indexing: negative
     wrap-around, `IndexError` when out of range) and `continue`s;
  6. the realloc-stats line sets the young/heap sizes and pause times. -/
def loopStep (r : GCRecord) (l : Line) : StepRes :=
  if l.hasConcSweep then
    match l.sweepMatch with
    | some (t, sweep) =>
        .brk { r with is_cms_gc := true, valid_record := true,
                      gc_type := some "CMS", jvm_running_time := some t,
                      cms_sweep_time := some sweep }
    | none => .brk r
  else
    let r :=
      if ¬ (pyTruthyQ r.jvm_running_time || pyTruthyS r.gc_type) then
        match l.main with
        | .uptime t ty => { r with jvm_running_time := some t, gc_type := some ty }
        | _ => r
      else r
    match l.main with
    | .threshold dss ct mt =>
      if ¬ (pyTruthyZ r.desired_survivor_size || pyTruthyZ r.curr_threshold
            || pyTruthyZ r.max_threshold) then
        .cont { r with valid_record := true,
                       desired_survivor_size := some (dss : ℤ),
                       curr_threshold := some (ct : ℤ),
                       max_threshold := some (mt : ℤ),
                       ages := r.ages ++ (List.range' 1 mt).map
                         (fun a : ℕ => ((a : ℤ), (-1 : ℤ), (-1 : ℤ))) }
      else
        if pyLtQ r.jvm_running_time 300 then .brk { r with valid_record := false }
        else .cont r
    | .age a bytes total =>
      if pyLtQ r.jvm_running_time 300 then .brk { r with valid_record := false }
      else
        match pySetIdx r.ages ((a : ℤ) - 1) ((a : ℤ), (bytes : ℤ), (total : ℤ)) with
        | some ages' => .cont { r with ages := ages' }
        | none => .err .indexError
    | .realloc yb ya yt ysecs hb ha ht tsecs =>
      if pyLtQ r.jvm_running_time 300 then .brk { r with valid_record := false }
      else .cont (applyRealloc r yb ya yt ysecs hb ha ht tsecs)
    | _ =>
      if pyLtQ r.jvm_running_time 300 then .brk { r with valid_record := false }
      else .cont r

/-- The per-line loop of `_parse_record`: iterate `loopStep` until a
`break`, an exception, or the end of the stanza. -/
def runLines : GCRecord → List Line → StepRes
  | r, [] => .cont r
  | r, l :: rest =>
    match loopStep r l with
    | .cont r' => runLines r' rest
    | .brk r' => .brk r'
    | .err e => .err e

/-- The per-line loop of `_parse_record` as the record transformer it is:
falling off the end of the stanza and `break`ing both leave the record as
is; an exception escapes the constructor. -/
def parseLoop (r : GCRecord) (lines : List Line) : Except PyExc GCRecord :=
  match runLines r lines with
  | .cont r' => .ok r'
  | .brk r' => .ok r'
  | .err e => .error e

/-- The whole of `GCRecord._parse_record` on a stanza `(timestamp, lines)`:
first the stop-the-world classification pass, then — only when the record
is not stop-the-world — the per-line loop. -/
def parseStanza (ts : ℚ) (lines : List Line) : Except PyExc GCRecord :=
  let r := stwPhase lines (initRecord ts)
  if r.is_stw_gc then .ok r else parseLoop r lines

/-- One iteration of the record-accumulation loop of `_at_exit`: when a
just-parsed record's uptime is truthy and strictly below the uptime of the
most recently accepted record, the accumulated history is discarded
(JVM-restart detection); afterwards the record is appended iff valid. -/
def atExitStep (gc_data : List GCRecord) (r : GCRecord) : List GCRecord :=
  let d :=
    match gc_data.getLast? with
    | some prev =>
        if pyTruthyQ r.jvm_running_time ∧
            pyGtQ prev.jvm_running_time r.jvm_running_time then [] else gc_data
    | none => gc_data
  if r.valid_record then d ++ [r] else d

/-- The record-accumulation loop of `_at_exit` over the sequence of parsed
stanza records (in log order). -/
def accumulate (records : List GCRecord) : List GCRecord :=
  records.foldl atExitStep []

/-- Python 2 comparison `x < (n : int)` on an optional integer:
`None` compares below every number (`None < 15` is true). -/
def pyLtZ (x : Option ℤ) (n : ℤ) : Bool :=
  match x with
  | none => true
  | some z => z < n

/-- Python 2 equality `n == x` between an int and an optional int:
`n == None` is false. -/
def pyEqZ (n : ℤ) (x : Option ℤ) : Bool :=
  match x with
  | none => false
  | some z => n = z

/-- The `age_objects_still_alive` accumulation of `_get_survivor_info`:
starting from `current_percentage = 100`, each age multiplies in the
survival fraction `1 - mean_death_rate` and appends the running value
(`survivor_info` entries are `(min, mean, max)` keyed by ascending age). -/
def aliveList (survivor_info : List (ℚ × ℚ × ℚ)) : List ℚ :=
  (survivor_info.foldl
    (fun (acc : ℚ × List ℚ) v =>
      let c := acc.1 * (1 - v.2.1)
      (c, acc.2 ++ [c]))
    ((100 : ℚ), [])).2

/-- The tail of `_get_survivor_info` (from `max_tenuring_size` on): the
`survivor_ratio = adj_ng_size / max_tenuring_size` computation, the
clamp-to-1 branch (which sets the new-gen size to `max_tenuring_size`),
the `adj_ng_size += max_tenuring_size` growth of the other branch, and
the `max_tenuring_age *= 1 / ng_size_delta_pct` scaling. -/
def survivorFinish (adj_ng_size max_tenuring_size ng_size_delta_pct : ℚ)
    (max_tenuring_age : ℕ) : Except String (ℚ × ℚ × ℚ × ℚ) :=
  if max_tenuring_size = 0 then .error "ZeroDivisionError: survivor_ratio"
  else if ng_size_delta_pct = 0 then .error "ZeroDivisionError: 1 / ng_size_delta_pct"
  else if adj_ng_size / max_tenuring_size < 1 then
    .ok (max_tenuring_size, 1, max_tenuring_size,
      (max_tenuring_age : ℚ) * (1 / ng_size_delta_pct))
  else
    .ok (adj_ng_size + max_tenuring_size, adj_ng_size / max_tenuring_size,
      max_tenuring_size, (max_tenuring_age : ℚ) * (1 / ng_size_delta_pct))

/-- The `_get_survivor_info` function of `jtune.py`, embedded over exact
rationals (the `Decimal` execution path).  It returns
`(adj_ng_size, survivor_ratio, max_tenuring_size, max_tenuring_age)`;
any uncaught Python exception (`ValueError` raised for the error
messages, `IndexError` on `gc_data[0]` / `age_objects_still_alive[-1]`,
`ValueError` from `max()` of an empty list, `ZeroDivisionError`) is an
`Except.error` naming the exception.  Sequencing of fallible pieces is
written with `Except.bind`.  Two harmless restructurings: the two
`ZeroDivisionError` guards are hoisted in front of uses of the
corresponding quotients, and the float literal `.33` is embedded as
`33/100` (the comparison differs only on ratios within one float ulp of
`.33`, which no theorem below evaluates). -/
def getSurvivorInfo (death_ages : List ℚ) (survivor_info : List (ℚ × ℚ × ℚ))
    (gc_data : List GCRecord) (survivor_problem_pct : ℚ)
    (curr_ng_size adj_ng_size : ℚ) : Except String (ℚ × ℚ × ℚ × ℚ) :=
  let ng_size_delta := curr_ng_size - adj_ng_size
  if curr_ng_size = 0 then .error "ZeroDivisionError: ng_size_delta_pct" else
  let ng_size_delta_pct := adj_ng_size / curr_ng_size
  let survivor_watermark := 100 - survivor_problem_pct
  Except.bind
    (match gc_data.head? with
     | none => .error "IndexError: gc_data[0]"
     | some g0 => .ok g0)
    (fun g0 =>
  let max_survivor_age := g0.max_threshold
  let longest_used_ratio : ℤ := survivor_info.length + 1
  let age_objects_still_alive := aliveList survivor_info
  let errStats := "ValueError: could not retrieve any meaningful survivor statistics"
  Except.bind
    (if pyLtZ max_survivor_age 15 then
      if pyEqZ longest_used_ratio max_survivor_age then
        match age_objects_still_alive.getLast? with
        | none => .error "IndexError: age_objects_still_alive[-1]"
        | some lastAlive =>
          if lastAlive > (100 - survivor_watermark) / 100 then
            .error "ValueError: survivor ratio too small"
          else if survivor_info.isEmpty then .error errStats
          else .ok ()
      else if survivor_info.isEmpty then .error errStats
      else .ok ()
    else if survivor_info.isEmpty then .error errStats
    else .ok ())
    (fun _ =>
  let mta0 : ℕ :=
    match age_objects_still_alive.findIdx? (fun v => v ≤ survivor_problem_pct) with
    | some i => i + 1
    | none => 0
  Except.bind
    (if mta0 = 0 then
      if death_ages.length = 0 then .error "ZeroDivisionError: below_threshold_pct"
      else
        let below_threshold_ct := (death_ages.filter (fun d => d ≤ 4 / 100)).length
        let below_threshold_pct : ℚ := (below_threshold_ct : ℚ) / (death_ages.length : ℚ)
        if below_threshold_pct > 33 / 100 then .ok (death_ages.length - below_threshold_ct)
        else .ok 0
    else .ok mta0)
    (fun max_tenuring_age =>
  let tenure_sizes : List ℤ :=
    gc_data.filterMap
      (fun g => (pyGetIdx g.ages ((max_tenuring_age : ℤ) - 1)).map (fun t => t.2.2))
  Except.bind
    (match tenure_sizes with
     | [] => .error "ValueError: max() arg is an empty sequence"
     | t0 :: ts => .ok (t0, ts))
    (fun p =>
  survivorFinish adj_ng_size ((p.2.foldl max p.1 : ℤ) * 2 + ng_size_delta / 2)
    ng_size_delta_pct max_tenuring_age))))

/-- The young-generation rate computation of `_run_analysis` for one
consecutive pair `(first_gc, second_gc)`: `none` when the pair is skipped
because either member is stop-the-world or concurrent-sweep, otherwise
`(yg_alloc_rate, yg_growth_rate)`.  The `try/except TypeError` of the
source (both deltas fall back to `0` when any needed size is `None`) is
the wildcard arm of the inner match. -/
def ygRatePair (first_gc second_gc : GCRecord) : Option (ℚ × ℚ) :=
  if second_gc.is_stw_gc || first_gc.is_stw_gc
      || first_gc.is_cms_gc || second_gc.is_cms_gc then none
  else
    let time_delta := secDiff first_gc.record_timestamp second_gc.record_timestamp
    let deltas : ℤ × ℤ :=
      match second_gc.young_size_before_gc, first_gc.young_size_after_gc,
            second_gc.young_size_after_gc with
      | some yb, some ya, some ya2 => (yb - ya, ya2 - ya)
      | _, _, _ => (0, 0)
    some ((deltas.1 : ℚ) / time_delta, (deltas.2 : ℚ) / time_delta)

/-- The `yg_rates` list of `_run_analysis`: the rate pairs over consecutive
record pairs, qualifying pairs only. -/
def ygRates (gc_data : List GCRecord) : List (ℚ × ℚ) :=
  (gc_data.zip gc_data.tail).filterMap (fun p => ygRatePair p.1 p.2)

/-- The per-pair survivor death-rate list of `_run_analysis`: the source
iterates `zip(first_gc.ages, second_gc.ages[1:])`, skips a cohort pair
when the second record's slot holds the sentinel `-1` bytes, and
otherwise records `1 - second_bytes / first_bytes` (entries are
`(age, bytes, total)` triples; the source's `Decimal` division raises
`ZeroDivisionError` when `first_bytes` is `0`, a case no theorem below
evaluates). -/
def survivorDeathRatesPair (first_gc second_gc : GCRecord) : List ℚ :=
  (first_gc.ages.zip second_gc.ages.tail).filterMap
    (fun p => if p.2.2.1 = -1 then none else some (1 - (p.2.2.1 : ℚ) / (p.1.2.1 : ℚ)))

/-- The `gc_survivor_death_rates` list of `_run_analysis`: per-pair death
rate lists over consecutive qualifying record pairs. -/
def gcSurvivorDeathRates (gc_data : List GCRecord) : List (List ℚ) :=
  (gc_data.zip gc_data.tail).filterMap
    (fun p =>
      if p.2.is_stw_gc || p.1.is_stw_gc || p.1.is_cms_gc || p.2.is_cms_gc then none
      else some (survivorDeathRatesPair p.1 p.2))

/-- The `normal_gc_data` filter of `_show_recommendations`:
`filter(lambda x: x.og_used > 0, gc_data)` (Python 2: `None > 0` is
false, so records without a parsed old-gen usage are dropped). -/
def normalGcData (gc_data : List GCRecord) : List GCRecord :=
  gc_data.filter (fun r => pyGtZ r.og_used (some 0))

/-- The `record_num` computation of `_show_recommendations`: the first
index (over consecutive pairs of `normal_gc_data`) at which the old-gen
usage strictly decreases — the first detected CMS/full collection;
`none` embeds the `IndexError` path (no such pair). -/
def firstDropIndex : List GCRecord → Option ℕ
  | first_gc :: second_gc :: rest =>
    if pyGtZ first_gc.og_used second_gc.og_used then some 0
    else (firstDropIndex (second_gc :: rest)).map (· + 1)
  | _ => none

/-- The `live_data_size_bytes` estimate of `_show_recommendations`:
`_min(record.og_used for record in normal_gc_data[record_num:])`, or
`None` when no old-gen decrease was detected. -/
def liveDataSizeBytes (gc_data : List GCRecord) : Option ℤ :=
  let normal := normalGcData gc_data
  match firstDropIndex normal with
  | none => none
  | some record_num => some (jtMin ((normal.drop record_num).filterMap (·.og_used)))

/-- The `fgc_count_goal` constant of `_show_recommendations`. -/
def fgcCountGoal : ℕ := 3

/-- The heap-sizing stage of `_show_recommendations` (lines guarding on
`fgc_count_goal` and computing `recommended_max_heap_size`): with fewer
than `fgc_count_goal` full-GC pause samples the stage halts with the
insufficient-data diagnostic; otherwise
`recommended_max_heap_size = 3.5 * live_data_size_bytes +
(max_tenuring_size + adj_ng_size)` (a `None` live estimate would raise
`TypeError` in `float(None)`). -/
def heapStage (full_gc_times : List ℚ) (live_data_size_bytes : Option ℤ)
    (max_tenuring_size adj_ng_size : ℚ) : Except String ℚ :=
  if full_gc_times.length < fgcCountGoal then
    .error "insufficient full-GC samples"
  else
    match live_data_size_bytes with
    | none => .error "TypeError: float(None)"
    | some live => .ok (7 / 2 * (live : ℚ) + (max_tenuring_size + adj_ng_size))

/-- The stage ordering of `_show_recommendations` relevant to heap sizing:
the survivor stage (`_get_survivor_info`) runs first and its results are
reported; the heap stage runs afterwards and may halt without undoing
them.  The result pairs the survivor-stage output with the heap stage's
own outcome. -/
def recommendationPipeline (death_ages : List ℚ) (survivor_info : List (ℚ × ℚ × ℚ))
    (gc_data : List GCRecord) (survivor_problem_pct curr_ng_size adj_ng_size : ℚ)
    (full_gc_times : List ℚ) :
    Except String ((ℚ × ℚ × ℚ × ℚ) × Except String ℚ) :=
  match getSurvivorInfo death_ages survivor_info gc_data survivor_problem_pct
      curr_ng_size adj_ng_size with
  | .error e => .error e
  | .ok s => .ok (s, heapStage full_gc_times (liveDataSizeBytes gc_data) s.2.2.1 s.1)

/-- Outcome of the entry checks of `_run_analysis`. -/
inductive AnalysisOutcome : Type
  | sysExit (code : ℕ) : AnalysisOutcome
  | insufficientData (found : ℕ) : AnalysisOutcome
  | proceeds : AnalysisOutcome
deriving DecidableEq, Repr

/-- The entry checks of `_run_analysis`: an empty record list hits
`sys.exit(1)` before any report is produced; a list with fewer than 2
records prints the insufficient-data note and returns `False` (after the
meta section was already displayed); otherwise analysis proceeds. -/
def runAnalysisGate (gc_data : List GCRecord) : AnalysisOutcome :=
  if gc_data.isEmpty then .sysExit 1
  else if gc_data.length < 2 then .insufficientData gc_data.length
  else .proceeds

/-- Young-generation rates exactly as the specification sentence states
them: for each consecutive qualifying pair `(A, B)` — neither member
stop-the-world nor concurrent-sweep — the allocation rate is
`(B.young_size_before_gc - A.young_size_after_gc) / elapsed seconds` and
the growth rate `(B.young_size_after_gc - A.young_size_after_gc) /
elapsed seconds`; skipped pairs contribute no entry. -/
def specYgRates (gc_data : List GCRecord) : List (ℚ × ℚ) :=
  (gc_data.zip gc_data.tail).filterMap (fun p =>
    if p.2.is_stw_gc || p.1.is_stw_gc || p.1.is_cms_gc || p.2.is_cms_gc then none
    else
      let elapsed := p.2.record_timestamp - p.1.record_timestamp
      some ((((p.2.young_size_before_gc.getD 0 - p.1.young_size_after_gc.getD 0 : ℤ)) : ℚ) / elapsed,
            (((p.2.young_size_after_gc.getD 0 - p.1.young_size_after_gc.getD 0 : ℤ)) : ℚ) / elapsed))

/-- Survivor death rates as claim C5 states them: aligned cohort indices,
cohort `i` of `A` against cohort `i` of `B`, skipped exactly when `B`'s
slot holds the sentinel `-1` bytes. -/
def specAlignedSurvivorDeathRates (gc_data : List GCRecord) : List (List ℚ) :=
  (gc_data.zip gc_data.tail).filterMap (fun p =>
    if p.2.is_stw_gc || p.1.is_stw_gc || p.1.is_cms_gc || p.2.is_cms_gc then none
    else some ((p.1.ages.zip p.2.ages).filterMap
      (fun q => if q.2.2.1 = -1 then none else some (1 - (q.2.2.1 : ℚ) / (q.1.2.1 : ℚ)))))

/-- Survivor death rates as the amended claim states them: cohort `i` of
`A` is compared against cohort `i + 1` of `B` (survivors of age `i` at
`A` appear at age `i + 1` at `B`), for every `i` with both slots in
range, skipping exactly the pairs whose `B` slot holds the sentinel `-1`
bytes. -/
def specOffsetSurvivorDeathRates (gc_data : List GCRecord) : List (List ℚ) :=
  (gc_data.zip gc_data.tail).filterMap (fun p =>
    if p.2.is_stw_gc || p.1.is_stw_gc || p.1.is_cms_gc || p.2.is_cms_gc then none
    else some ((List.range (min p.1.ages.length (p.2.ages.length - 1))).filterMap
      (fun i =>
        match p.1.ages[i]?, p.2.ages[i + 1]? with
        | some fa, some sa =>
            if sa.2.1 = -1 then none else some (1 - (sa.2.1 : ℚ) / (fa.2.1 : ℚ))
        | _, _ => none)))

/-- Live old-gen estimate as the specification sentence states it: the
minimum old-gen-used sample observed strictly after the first detected
full collection (the drop is detected between positions `k` and `k + 1`
of `normal_gc_data`, so "strictly after" starts at `k + 1`). -/
def specLiveDataSizeBytes (gc_data : List GCRecord) : Option ℤ :=
  let normal := normalGcData gc_data
  match firstDropIndex normal with
  | none => none
  | some record_num =>
      some (jtMin ((normal.drop (record_num + 1)).filterMap (·.og_used)))

/-- Uptime monotonicity as claim C2 states it: across the accepted-event
list, JVM uptime is non-decreasing (for every earlier/later pair in
which both records carry an uptime). -/
def uptimeLeB (X Y : GCRecord) : Bool :=
  match X.jvm_running_time, Y.jvm_running_time with
  | some x, some y => x ≤ y
  | _, _ => true

/-- Claim C2's invariant over an accepted-event list. -/
abbrev uptimeMonotone (l : List GCRecord) : Prop :=
  List.Pairwise (fun X Y => uptimeLeB X Y = true) l

/-- The step relation that actually holds between consecutive accepted
records: the later record's uptime is at least the earlier's, provided
both uptimes were parsed and the later one is nonzero (Python truthiness
of the later uptime is what arms the restart check). -/
def uptimeStepLe (X Y : GCRecord) : Bool :=
  match X.jvm_running_time, Y.jvm_running_time with
  | some x, some y => y = 0 || x ≤ y
  | _, _ => true

/-- C10: the aggregator's `_min` and `_max` helpers return `0` for the
empty list instead of raising, so min/max statistics over a rate or
pause series with no qualifying samples are reported as `0`. -/
theorem c10_min_max_empty :
    jtMin ([] : List ℚ) = 0 ∧ jtMax ([] : List ℚ) = 0 ∧
    jtMin ([] : List ℤ) = 0 ∧ jtMax ([] : List ℤ) = 0 ∧
    jtMin ((ygRates []).map Prod.fst) = 0 ∧ jtMax ((ygRates []).map Prod.fst) = 0 :=
  ⟨rfl, rfl, rfl, rfl, rfl, rfl⟩

/-- C9 counterexample: with zero valid events, `_run_analysis` does not
produce the insufficient-data report — it calls `sys.exit(1)`, which is
not a non-crashing outcome and produces no partial report. -/
theorem c9_cex :
    runAnalysisGate [] = .sysExit 1 ∧
    AnalysisOutcome.sysExit 1 ≠ .insufficientData 0 := by
  exact ⟨rfl, by decide⟩

/-- C9 amended: with exactly one valid event the analysis halts right
after reporting insufficient data (a plain `return False`), a
non-crashing outcome; with zero valid events it instead exits the
process with status 1 before any report. -/
theorem c9_amended (gc_data : List GCRecord) :
    (gc_data.length = 1 → runAnalysisGate gc_data = .insufficientData 1) ∧
    (gc_data = [] → runAnalysisGate gc_data = .sysExit 1) := by
  constructor
  · intro h
    cases gc_data with
    | nil => simp at h
    | cons a t =>
      cases t with
      | nil => rfl
      | cons b t2 => simp [List.length_cons] at h
  · intro h
    subst h
    rfl

/-- C9 amended, witnessed at a concrete one-record list. -/
theorem c9_witness : runAnalysisGate [initRecord 0] = .insufficientData 1 :=
  (c9_amended [initRecord 0]).1 rfl

/-- C1: for every record list with strictly increasing timestamps (the
log order; `sec_diff` of equal timestamps would raise in the source's
`Decimal` division) in which every non-stop-the-world, non-sweep record
parsed its young-gen sizes, the computed `yg_rates` are exactly the
specification's: allocation rate
`(B.young_before - A.young_after) / elapsed` and growth rate
`(B.young_after - A.young_after) / elapsed` per consecutive qualifying
pair, with stop-the-world / concurrent-sweep pairs contributing no
entry. -/
theorem c1_yg_rates (gc_data : List GCRecord)
    (_hts : List.Chain' (fun A B => A.record_timestamp < B.record_timestamp) gc_data)
    (hfields : ∀ r ∈ gc_data, r.is_stw_gc = false → r.is_cms_gc = false →
      r.young_size_before_gc.isSome ∧ r.young_size_after_gc.isSome) :
    ygRates gc_data = specYgRates gc_data := by
  unfold ygRates specYgRates
  apply List.filterMap_congr
  intro p hp
  obtain ⟨a, b⟩ := p
  obtain ⟨ha, hb'⟩ := List.of_mem_zip hp
  have hb : b ∈ gc_data := List.mem_of_mem_tail hb'
  unfold ygRatePair
  by_cases hskip : (b.is_stw_gc || a.is_stw_gc || a.is_cms_gc || b.is_cms_gc) = true
  · simp [hskip]
  · have hflags := hskip
    simp only [Bool.or_eq_true, not_or, Bool.not_eq_true] at hflags
    obtain ⟨⟨⟨hbs, has⟩, hac⟩, hbc⟩ := hflags
    obtain ⟨hax1, hax2⟩ := hfields a ha has hac
    obtain ⟨hbx1, hbx2⟩ := hfields b hb hbs hbc
    obtain ⟨yb, hyb⟩ := Option.isSome_iff_exists.mp hbx1
    obtain ⟨ya, hya⟩ := Option.isSome_iff_exists.mp hax2
    obtain ⟨ya2, hya2⟩ := Option.isSome_iff_exists.mp hbx2
    simp [hskip, hyb, hya, hya2, secDiff]

/-- C1 witness records: two consecutive ParNew events with parsed sizes. -/
def w1a : GCRecord :=
  { initRecord 0 with
    valid_record := true
    young_size_before_gc := some 1000
    young_size_after_gc := some 100 }

/-- Second C1 witness record, ten seconds later. -/
def w1b : GCRecord :=
  { initRecord 10 with
    valid_record := true
    young_size_before_gc := some 1200
    young_size_after_gc := some 200 }

/-- C1 witnessed at a concrete two-record list. -/
theorem c1_witness : ygRates [w1a, w1b] = specYgRates [w1a, w1b] :=
  c1_yg_rates [w1a, w1b]
    (List.chain'_cons.2 ⟨by norm_num [w1a, w1b, initRecord], List.chain'_singleton _⟩)
    (by decide)

/-- Helper: a `filterMap` over `zip` is the same as a `filterMap` over the
index range, reading both lists at the shared index. -/
theorem zip_filterMap_eq_range {α β γ : Type} (l₁ : List α) (l₂ : List β)
    (f : α × β → Option γ) :
    (l₁.zip l₂).filterMap f =
      (List.range (min l₁.length l₂.length)).filterMap (fun i =>
        match l₁[i]?, l₂[i]? with
        | some a, some b => f (a, b)
        | _, _ => none) := by
  induction l₁ generalizing l₂ with
  | nil => simp
  | cons a l₁ ih =>
    cases l₂ with
    | nil => simp
    | cons b l₂ =>
      simp only [List.zip_cons_cons, List.filterMap_cons, List.length_cons,
        Nat.succ_min_succ, List.range_succ_eq_map, List.filterMap_map]
      have harms : ∀ i : ℕ,
          ((fun i =>
            match (a :: l₁)[i]?, (b :: l₂)[i]? with
            | some x, some y => f (x, y)
            | _, _ => none) ∘ (· + 1)) i =
          (fun i =>
            match l₁[i]?, l₂[i]? with
            | some x, some y => f (x, y)
            | _, _ => none) i := by
        intro i
        simp [List.getElem?_cons_succ]
      rw [List.filterMap_congr (fun i _ => harms i)]
      cases hf : f (a, b) <;> simp [hf, ih]

/-- C5 counterexample records: two consecutive ParNew events with two
survivor cohorts each, no sentinel slots. -/
def c5A : GCRecord :=
  { initRecord 0 with
    valid_record := true
    ages := [(1, 100, 100), (2, 200, 200)] }

/-- Second C5 counterexample record, ten seconds later. -/
def c5B : GCRecord :=
  { initRecord 10 with
    valid_record := true
    ages := [(1, 50, 50), (2, 150, 150)] }

/-- C5 counterexample: the aggregator compares cohort `i` of `A` against
cohort `i + 1` of `B` (`zip(first_gc.ages, second_gc.ages[1:])`), not
aligned indices.  At these two records the code produces the single rate
`1 - 150/100 = -1/2`, while the claim's aligned-index computation would
produce `[1 - 50/100, 1 - 150/200] = [1/2, 1/4]`. -/
theorem c5_cex :
    gcSurvivorDeathRates [c5A, c5B] = [[-(1 / 2 : ℚ)]] ∧
    specAlignedSurvivorDeathRates [c5A, c5B] = [[(1 / 2 : ℚ), (1 / 4 : ℚ)]] ∧
    gcSurvivorDeathRates [c5A, c5B] ≠ specAlignedSurvivorDeathRates [c5A, c5B] := by
  with_unfolding_all decide

/-- C5 amended: for every qualifying consecutive pair the survivor death
rate compares cohort `i` of `A` against cohort `i + 1` of `B` (offset
alignment — survivors of age `i` at `A` sit at age `i + 1` at `B`), with
rate `1 - B.bytes / A.bytes`, and a cohort pair is skipped exactly when
`B`'s slot holds the sentinel `-1` bytes; stop-the-world and
concurrent-sweep pairs contribute nothing. -/
theorem c5_amended (gc_data : List GCRecord) :
    gcSurvivorDeathRates gc_data = specOffsetSurvivorDeathRates gc_data := by
  unfold gcSurvivorDeathRates specOffsetSurvivorDeathRates survivorDeathRatesPair
  apply List.filterMap_congr
  intro p _
  by_cases hskip : (p.2.is_stw_gc || p.1.is_stw_gc || p.1.is_cms_gc || p.2.is_cms_gc) = true
  · simp [hskip]
  · simp only [hskip, if_false, Bool.false_eq_true]
    congr 1
    rw [zip_filterMap_eq_range]
    have hlen : p.2.ages.tail.length = p.2.ages.length - 1 := List.length_tail _
    rw [hlen]
    apply List.filterMap_congr
    intro i _
    rw [List.getElem?_tail]
    cases p.1.ages[i]? <;> cases p.2.ages[i + 1]? <;> rfl

/-- Helper: one accumulation step of `_at_exit` preserves the
consecutive-uptime invariant `uptimeStepLe`. -/
theorem atExitStep_chain (l : List GCRecord) (r : GCRecord)
    (h : List.Chain' (fun X Y => uptimeStepLe X Y = true) l) :
    List.Chain' (fun X Y => uptimeStepLe X Y = true) (atExitStep l r) := by
  unfold atExitStep
  cases hl : l.getLast? with
  | none =>
    have hnil : l = [] := List.getLast?_eq_none_iff.mp hl
    subst hnil
    cases r.valid_record <;> simp [List.chain'_singleton]
  | some prev =>
    by_cases hreset : (pyTruthyQ r.jvm_running_time ∧
        pyGtQ prev.jvm_running_time r.jvm_running_time)
    · simp only [hreset, if_true]
      cases r.valid_record <;> simp [List.chain'_singleton]
    · simp only [hreset, if_false]
      cases hv : r.valid_record with
      | false => simpa using h
      | true =>
        simp only [if_true]
        rw [List.chain'_append]
        refine ⟨h, List.chain'_singleton r, ?_⟩
        intro x hx y hy
        rw [hl] at hx
        simp only [Option.mem_def, Option.some_inj] at hx
        simp only [List.head?_cons, Option.mem_def, Option.some_inj] at hy
        subst hx
        subst hy
        unfold uptimeStepLe
        cases hprev : prev.jvm_running_time with
        | none => rfl
        | some xv =>
          cases hr : r.jvm_running_time with
          | none => rfl
          | some yv =>
            by_cases hy0 : yv = 0
            · simp [hy0]
            · have htr : pyTruthyQ r.jvm_running_time = true := by
                simp [pyTruthyQ, hr, hy0]
              have hgt : pyGtQ prev.jvm_running_time r.jvm_running_time = false := by
                rcases Bool.eq_false_or_eq_true (pyGtQ prev.jvm_running_time r.jvm_running_time) with hgf | hgf
                · exact absurd ⟨htr, hgf⟩ hreset
                · exact hgf
              rw [hprev, hr] at hgt
              simp only [pyGtQ, decide_eq_false_iff_not, not_lt] at hgt
              simp [hy0, hgt]

/-- C2 amended: along the list accumulated by `_at_exit`, every
consecutive pair of accepted records satisfies `uptimeStepLe` — the
later record's uptime is at least the earlier's whenever both uptimes
were parsed and the later one is nonzero (truthy).  The restart check
compares `prev.jvm_running_time > new.jvm_running_time` only when the
new record's uptime is truthy, and Python 2's `None > x` is false, so a
stop-the-world record (whose uptime is `None`) breaks the chain of
comparisons: monotonicity holds between consecutive accepted records,
not across the whole list. -/
theorem c2_amended (records : List GCRecord) :
    List.Chain' (fun X Y => uptimeStepLe X Y = true) (accumulate records) := by
  have key : ∀ (rs : List GCRecord) (init : List GCRecord),
      List.Chain' (fun X Y => uptimeStepLe X Y = true) init →
      List.Chain' (fun X Y => uptimeStepLe X Y = true) (rs.foldl atExitStep init) := by
    intro rs
    induction rs with
    | nil => intro init h; exact h
    | cons r rs ih =>
      intro init h
      exact ih _ (atExitStep_chain init r h)
  exact key records [] List.chain'_nil

/-- C2 counterexample, first record: a valid ParNew event at uptime 500,
as parsed from a stanza (`c2Alines`). -/
def c2Arec : GCRecord :=
  { record_timestamp := 100
    valid_record := true
    jvm_running_time := some 500
    gc_type := some "ParNew"
    desired_survivor_size := some 1000
    curr_threshold := some 1
    max_threshold := some 1
    ages := [(1, -1, -1)] }

/-- Stanza for `c2Arec`: an uptime line followed by a threshold line. -/
def c2Alines : List Line :=
  [{ main := .uptime 500 "ParNew" }, { main := .threshold 1000 1 1 }]

/-- C2 counterexample, second record: a valid Full-GC (stop-the-world)
event; its `jvm_running_time` is never assigned and stays `None`. -/
def c2Frec : GCRecord :=
  { record_timestamp := 200
    valid_record := true
    is_stw_gc := true
    gc_type := some "FULL"
    stw_time := 1 / 10 }

/-- Stanza for `c2Frec`: one line containing the `Full GC` marker with a
trailing `", 0.1 secs] "` token. -/
def c2Flines : List Line :=
  [{ hasFullGC := true, secsSearch := some (1 / 10) }]

/-- C2 counterexample, third record: a valid ParNew event at uptime 400 —
lower than `c2Arec`'s 500. -/
def c2Brec : GCRecord :=
  { record_timestamp := 300
    valid_record := true
    jvm_running_time := some 400
    gc_type := some "ParNew"
    desired_survivor_size := some 1000
    curr_threshold := some 1
    max_threshold := some 1
    ages := [(1, -1, -1)] }

/-- Stanza for `c2Brec`. -/
def c2Blines : List Line :=
  [{ main := .uptime 400 "ParNew" }, { main := .threshold 1000 1 1 }]

/-- C2 counterexample: all three records are genuine parser outputs; the
accumulation loop keeps all three (the restart check never fires because
the Full-GC record's uptime is `None`: `None > 400` is false in Python 2
and the check is guarded by the new record's uptime truthiness), yet the
accepted list's uptimes go `500, None, 400` — not monotonically
non-decreasing, and no reset happened although `400 < 500`. -/
theorem c2_cex :
    parseStanza 100 c2Alines = .ok c2Arec ∧
    parseStanza 200 c2Flines = .ok c2Frec ∧
    parseStanza 300 c2Blines = .ok c2Brec ∧
    accumulate [c2Arec, c2Frec, c2Brec] = [c2Arec, c2Frec, c2Brec] ∧
    ¬ uptimeMonotone (accumulate [c2Arec, c2Frec, c2Brec]) := by
  set_option maxRecDepth 4000 in
  with_unfolding_all decide

/-- C2 amended, witnessed on the accepted list of the counterexample. -/
theorem c2_witness :
    List.Chain' (fun X Y => uptimeStepLe X Y = true) (accumulate [c2Arec, c2Frec, c2Brec]) :=
  c2_amended [c2Arec, c2Frec, c2Brec]

/-- Helper: inversion of `Except.bind` on a successful result. -/
theorem except_bind_ok {α β : Type} {e : Except String α} {f : α → Except String β} {b : β}
    (h : Except.bind e f = .ok b) : ∃ a, e = .ok a ∧ f a = .ok b := by
  cases e with
  | error s => exact absurd h (by simp [Except.bind])
  | ok a => exact ⟨a, rfl, h⟩

/-- Helper: the clamp behavior of the `_get_survivor_info` tail. -/
theorem survivorFinish_clamp {adj M pct : ℚ} {mta : ℕ} {ng2 ratio mts mta2 : ℚ}
    (hok : survivorFinish adj M pct mta = .ok (ng2, ratio, mts, mta2)) :
    (adj / mts < 1 → ratio = 1 ∧ ng2 = mts ∧ ng2 = adj + (mts - adj)) ∧
    (¬ adj / mts < 1 → ratio = adj / mts ∧ ng2 = adj + mts) := by
  unfold survivorFinish at hok
  by_cases h1 : M = 0
  · rw [if_pos h1] at hok
    exact absurd hok (by simp)
  rw [if_neg h1] at hok
  by_cases h2 : pct = 0
  · rw [if_pos h2] at hok
    exact absurd hok (by simp)
  rw [if_neg h2] at hok
  by_cases h3 : adj / M < 1
  · rw [if_pos h3] at hok
    cases hok
    exact ⟨fun _ => ⟨rfl, rfl, by ring⟩, fun hn => absurd h3 hn⟩
  · rw [if_neg h3] at hok
    cases hok
    exact ⟨fun hlt => absurd hlt h3, fun _ => ⟨rfl, rfl⟩⟩

/-- C3: whenever `_get_survivor_info` returns, if the computed survivor
ratio `adj_ng_size / max_tenuring_size` is strictly below 1 the returned
ratio is exactly 1 and the returned new-gen size is exactly
`max_tenuring_size` — an increase of exactly
`max_tenuring_size - pre_clamp_new_gen_size`; otherwise the ratio is
returned unclamped (and the new-gen size is grown by the tenuring
size). -/
theorem c3_survivor_clamp (death_ages : List ℚ) (survivor_info : List (ℚ × ℚ × ℚ))
    (gc_data : List GCRecord) (survivor_problem_pct curr_ng_size adj_ng_size : ℚ)
    (ng2 ratio mts mta2 : ℚ)
    (hok : getSurvivorInfo death_ages survivor_info gc_data survivor_problem_pct
      curr_ng_size adj_ng_size = .ok (ng2, ratio, mts, mta2)) :
    (adj_ng_size / mts < 1 →
      ratio = 1 ∧ ng2 = mts ∧ ng2 = adj_ng_size + (mts - adj_ng_size)) ∧
    (¬ adj_ng_size / mts < 1 →
      ratio = adj_ng_size / mts ∧ ng2 = adj_ng_size + mts) := by
  simp only [getSurvivorInfo] at hok
  by_cases h0 : curr_ng_size = 0
  · rw [if_pos h0] at hok
    exact absurd hok (by simp)
  rw [if_neg h0] at hok
  obtain ⟨g0, _, hok⟩ := except_bind_ok hok
  obtain ⟨u, _, hok⟩ := except_bind_ok hok
  obtain ⟨mta, _, hok⟩ := except_bind_ok hok
  obtain ⟨p, _, hok⟩ := except_bind_ok hok
  exact survivorFinish_clamp hok

/-- C3 witness record: one event with a single survivor cohort of total
size 400 bytes and a declared max threshold of 1. -/
def w3rec : GCRecord :=
  { initRecord 0 with
    max_threshold := some 1
    ages := [(1, 10, 400)] }

set_option maxRecDepth 8000 in
/-- C3 witnessed: at concrete inputs `_get_survivor_info` returns
(800, 1, 800, 0) — the ratio 100/800 < 1 was clamped to 1 and the
new-gen size set to the tenuring size 800. -/
theorem c3_witness :
    (1 : ℚ) = 1 ∧ (800 : ℚ) = 800 ∧ (800 : ℚ) = 100 + (800 - 100) :=
  (c3_survivor_clamp [0] [(0, 0, 0)] [w3rec] 10 100 100 800 1 800 0
    (by with_unfolding_all decide)).1 (by norm_num)

/-- Helper: every record kept by the `normal_gc_data` filter has a parsed
old-gen usage. -/
theorem normalGcData_og_isSome (gc_data : List GCRecord) :
    ∀ r ∈ normalGcData gc_data, r.og_used.isSome := by
  intro r hr
  have hmem := List.mem_filter.mp hr
  cases hog : r.og_used with
  | none =>
    rw [hog] at hmem
    exact absurd hmem.2 (by simp [pyGtZ])
  | some v => simp

/-- Helper: dropping the record at the detected-drop index itself does not
change the minimum, because its old-gen usage strictly exceeds the next
record's. -/
theorem firstDropIndex_min (l : List GCRecord) (k : ℕ)
    (hsome : ∀ r ∈ l, r.og_used.isSome)
    (hk : firstDropIndex l = some k) :
    jtMin ((l.drop k).filterMap (·.og_used)) =
      jtMin ((l.drop (k + 1)).filterMap (·.og_used)) := by
  induction l generalizing k with
  | nil => simp [firstDropIndex] at hk
  | cons a t ih =>
    cases t with
    | nil => simp [firstDropIndex] at hk
    | cons b t2 =>
      unfold firstDropIndex at hk
      by_cases hgt : pyGtZ a.og_used b.og_used = true
      · rw [if_pos hgt] at hk
        have hk0 : k = 0 := by
          simpa using hk.symm
        subst hk0
        obtain ⟨va, hva⟩ := Option.isSome_iff_exists.mp (hsome a (by simp))
        obtain ⟨vb, hvb⟩ := Option.isSome_iff_exists.mp (hsome b (by simp))
        rw [hva, hvb] at hgt
        have hba : vb < va := by simpa [pyGtZ] using hgt
        simp only [List.drop_zero, List.drop_succ_cons, List.drop_zero,
          List.filterMap_cons, hva, hvb]
        show ((vb :: List.filterMap _ t2).foldl min va) = _
        rw [List.foldl_cons, min_eq_right (le_of_lt hba)]
        rfl
      · rw [if_neg hgt] at hk
        obtain ⟨k2, hk2, hkk⟩ := Option.map_eq_some'.mp hk
        subst hkk
        have ht : ∀ r ∈ b :: t2, r.og_used.isSome := by
          intro r hr
          exact hsome r (List.mem_cons_of_mem a hr)
        simpa [List.drop_succ_cons] using ih k2 ht hk2

/-- Helper: the live-data estimate of `_show_recommendations` equals the
specification's formulation — the minimum old-gen usage strictly after
the first detected full collection. -/
theorem liveDataSize_eq_spec (gc_data : List GCRecord) :
    liveDataSizeBytes gc_data = specLiveDataSizeBytes gc_data := by
  simp only [liveDataSizeBytes, specLiveDataSizeBytes]
  cases hk : firstDropIndex (normalGcData gc_data) with
  | none => simp only [hk]
  | some k =>
    simp only [hk]
    exact congrArg some
      (firstDropIndex_min (normalGcData gc_data) k (normalGcData_og_isSome gc_data) hk)

/-- C8: once the survivor stage has produced
`(ng2, ratio, mts, mta2)` — whatever the regime —
(a) with at least `fgc_count_goal = 3` full-GC pause samples and a
computed live-data estimate `L`, the pipeline recommends max heap
`3.5 * L + (mts + ng2)`;
(b) with fewer samples, the heap stage halts with the
insufficient-data diagnostic while the survivor-stage results stand; and
(c) the live-data estimate is exactly the minimum old-gen usage strictly
after the first detected full collection. -/
theorem c8_heap_sizing (death_ages : List ℚ) (survivor_info : List (ℚ × ℚ × ℚ))
    (gc_data : List GCRecord) (spp curr_ng adj_ng : ℚ) (full_gc_times : List ℚ)
    (ng2 ratio mts mta2 : ℚ)
    (hs : getSurvivorInfo death_ages survivor_info gc_data spp curr_ng adj_ng
      = .ok (ng2, ratio, mts, mta2)) :
    (∀ L : ℤ, fgcCountGoal ≤ full_gc_times.length → liveDataSizeBytes gc_data = some L →
      recommendationPipeline death_ages survivor_info gc_data spp curr_ng adj_ng full_gc_times
        = .ok ((ng2, ratio, mts, mta2), .ok (7 / 2 * (L : ℚ) + (mts + ng2)))) ∧
    (full_gc_times.length < fgcCountGoal →
      recommendationPipeline death_ages survivor_info gc_data spp curr_ng adj_ng full_gc_times
        = .ok ((ng2, ratio, mts, mta2), .error "insufficient full-GC samples")) ∧
    liveDataSizeBytes gc_data = specLiveDataSizeBytes gc_data := by
  refine ⟨?_, ?_, liveDataSize_eq_spec gc_data⟩
  · intro L hge hL
    simp only [recommendationPipeline, hs, heapStage, hL]
    rw [if_neg (by omega)]
  · intro hlt
    simp only [recommendationPipeline, hs, heapStage]
    rw [if_pos hlt]

/-- C8 witness, first record: survivor cohort data and old-gen usage. -/
def w8a : GCRecord :=
  { initRecord 0 with
    max_threshold := some 1
    ages := [(1, 10, 400)]
    og_used := some 1000 }

/-- C8 witness, second record: old-gen usage dropped (CMS detected). -/
def w8b : GCRecord :=
  { initRecord 10 with og_used := some 600 }

/-- C8 witness, third record. -/
def w8c : GCRecord :=
  { initRecord 20 with og_used := some 800 }

set_option maxRecDepth 8000 in
/-- C8 witnessed: with three full-GC samples and live estimate 600 the
pipeline recommends `3.5 * 600 + (800 + 800)`. -/
theorem c8_witness :
    recommendationPipeline [0] [(0, 0, 0)] [w8a, w8b, w8c] 10 100 100
        [1 / 10, 1 / 10, 1 / 10]
      = .ok ((800, 1, 800, 0), .ok (7 / 2 * ((600 : ℤ) : ℚ) + (800 + 800))) :=
  (c8_heap_sizing [0] [(0, 0, 0)] [w8a, w8b, w8c] 10 100 100 [1 / 10, 1 / 10, 1 / 10]
      800 1 800 0 (by with_unfolding_all decide)).1 600
    (by norm_num [fgcCountGoal]) (by with_unfolding_all decide)

/-- Helper: a `break` out of the parse loop leaves either a
concurrent-sweep record, an invalidated record, or the record unchanged
(the sweep-substring line whose full regex fails). -/
theorem loopStep_brk {r : GCRecord} {l : Line} {r' : GCRecord}
    (h : loopStep r l = .brk r') :
    r'.is_cms_gc = true ∨ r'.valid_record = false ∨ r' = r := by
  obtain ⟨im, fr, fg, cs, sm, ss, m⟩ := l
  cases cs with
  | true =>
    cases sm with
    | some p =>
      obtain ⟨t, sweep⟩ := p
      simp only [loopStep] at h
      cases h
      exact Or.inl rfl
    | none =>
      simp only [loopStep] at h
      cases h
      exact Or.inr (Or.inr rfl)
  | false =>
    cases m with
    | threshold dss ct mt =>
      simp only [loopStep, ite_self] at h
      by_cases hg : ¬ ((pyTruthyZ r.desired_survivor_size || pyTruthyZ r.curr_threshold
          || pyTruthyZ r.max_threshold) = true)
      · rw [if_pos hg] at h
        cases h
      · rw [if_neg hg] at h
        by_cases h3 : pyLtQ r.jvm_running_time 300 = true
        · rw [if_pos h3] at h
          cases h
          exact Or.inr (Or.inl rfl)
        · rw [if_neg h3] at h
          cases h
    | age a bytes total =>
      simp only [loopStep, ite_self] at h
      by_cases h3 : pyLtQ r.jvm_running_time 300 = true
      · rw [if_pos h3] at h
        cases h
        exact Or.inr (Or.inl rfl)
      · rw [if_neg h3] at h
        cases hset : pySetIdx r.ages ((a : ℤ) - 1) ((a : ℤ), (bytes : ℤ), (total : ℤ)) with
        | some ages2 => rw [hset] at h; cases h
        | none => rw [hset] at h; cases h
    | realloc yb ya yt ysecs hb ha ht tsecs =>
      simp only [loopStep, ite_self] at h
      by_cases h3 : pyLtQ r.jvm_running_time 300 = true
      · rw [if_pos h3] at h
        cases h
        exact Or.inr (Or.inl rfl)
      · rw [if_neg h3] at h
        cases h
    | uptime t ty =>
      simp only [loopStep] at h
      by_cases hg : ¬ ((pyTruthyQ r.jvm_running_time || pyTruthyS r.gc_type) = true)
      · rw [if_pos hg] at h
        by_cases h3 : pyLtQ (some t) 300 = true
        · rw [if_pos h3] at h
          cases h
          exact Or.inr (Or.inl rfl)
        · rw [if_neg h3] at h
          cases h
      · rw [if_neg hg] at h
        by_cases h3 : pyLtQ r.jvm_running_time 300 = true
        · rw [if_pos h3] at h
          cases h
          exact Or.inr (Or.inl rfl)
        · rw [if_neg h3] at h
          cases h
    | none =>
      simp only [loopStep, ite_self] at h
      by_cases h3 : pyLtQ r.jvm_running_time 300 = true
      · rw [if_pos h3] at h
        cases h
        exact Or.inr (Or.inl rfl)
      · rw [if_neg h3] at h
        cases h

/-- Helper: a `continue` through the parse loop never flips the
concurrent-sweep flag, and either leaves the uptime untouched or leaves
it a value that already passed the warm-up comparison. -/
theorem loopStep_cont_facts {r : GCRecord} {l : Line} {r' : GCRecord}
    (h : loopStep r l = .cont r') :
    r'.is_cms_gc = r.is_cms_gc ∧
    (r'.jvm_running_time = r.jvm_running_time ∨ pyLtQ r'.jvm_running_time 300 = false) := by
  obtain ⟨im, fr, fg, cs, sm, ss, m⟩ := l
  cases cs with
  | true =>
    cases sm with
    | some p =>
      obtain ⟨t, sweep⟩ := p
      simp only [loopStep] at h
      cases h
    | none =>
      simp only [loopStep] at h
      cases h
  | false =>
    cases m with
    | threshold dss ct mt =>
      simp only [loopStep, ite_self] at h
      by_cases hg : ¬ ((pyTruthyZ r.desired_survivor_size || pyTruthyZ r.curr_threshold
          || pyTruthyZ r.max_threshold) = true)
      · rw [if_pos hg] at h
        cases h
        exact ⟨rfl, Or.inl rfl⟩
      · rw [if_neg hg] at h
        by_cases h3 : pyLtQ r.jvm_running_time 300 = true
        · rw [if_pos h3] at h
          cases h
        · rw [if_neg h3] at h
          cases h
          exact ⟨rfl, Or.inl rfl⟩
    | age a bytes total =>
      simp only [loopStep, ite_self] at h
      by_cases h3 : pyLtQ r.jvm_running_time 300 = true
      · rw [if_pos h3] at h
        cases h
      · rw [if_neg h3] at h
        cases hset : pySetIdx r.ages ((a : ℤ) - 1) ((a : ℤ), (bytes : ℤ), (total : ℤ)) with
        | some ages2 =>
          rw [hset] at h
          cases h
          exact ⟨rfl, Or.inl rfl⟩
        | none =>
          rw [hset] at h
          cases h
    | realloc yb ya yt ysecs hb ha ht tsecs =>
      simp only [loopStep, ite_self] at h
      by_cases h3 : pyLtQ r.jvm_running_time 300 = true
      · rw [if_pos h3] at h
        cases h
      · rw [if_neg h3] at h
        cases h
        exact ⟨rfl, Or.inl rfl⟩
    | uptime t ty =>
      simp only [loopStep] at h
      by_cases hg : ¬ ((pyTruthyQ r.jvm_running_time || pyTruthyS r.gc_type) = true)
      · rw [if_pos hg] at h
        by_cases h3 : pyLtQ (some t) 300 = true
        · rw [if_pos h3] at h
          cases h
        · rw [if_neg h3] at h
          cases h
          exact ⟨rfl, Or.inr (Bool.not_eq_true _ ▸ h3)⟩
      · rw [if_neg hg] at h
        by_cases h3 : pyLtQ r.jvm_running_time 300 = true
        · rw [if_pos h3] at h
          cases h
        · rw [if_neg h3] at h
          cases h
          exact ⟨rfl, Or.inl rfl⟩
    | none =>
      simp only [loopStep, ite_self] at h
      by_cases h3 : pyLtQ r.jvm_running_time 300 = true
      · rw [if_pos h3] at h
        cases h
      · rw [if_neg h3] at h
        cases h
        exact ⟨rfl, Or.inl rfl⟩

/-- Helper: running the parse loop from a record whose uptime is still
unset, or already at least 300, can only end (by fall-through or break)
in a record that is concurrent-sweep, or invalid, or whose uptime is not
a parsed value below 300. -/
theorem runLines_warm (lines : List Line) :
    ∀ {r r' : GCRecord},
      (r.jvm_running_time = none ∨ pyLtQ r.jvm_running_time 300 = false) →
      (runLines r lines = .cont r' ∨ runLines r lines = .brk r') →
      r'.is_cms_gc = false →
      ∀ t : ℚ, r'.jvm_running_time = some t → t < 300 → r'.valid_record = false := by
  induction lines with
  | nil =>
    intro r r' hwarm hrun hcms t hjrt hlt
    rcases hrun with hrun | hrun
    · cases hrun
      rcases hwarm with hnone | hge
      · rw [hjrt] at hnone
        cases hnone
      · rw [hjrt] at hge
        simp only [pyLtQ, decide_eq_false_iff_not, not_lt] at hge
        exact absurd hlt (not_lt.mpr hge)
    · cases hrun
  | cons l rest ih =>
    intro r r' hwarm hrun hcms t hjrt hlt
    rcases hstep : loopStep r l with r1 | r1 | e
    · -- break
      simp only [runLines, hstep] at hrun
      rcases hrun with hrun | hrun
      · cases hrun
      · cases hrun
        rcases loopStep_brk hstep with hc | hv | heq
        · rw [hc] at hcms
          cases hcms
        · exact hv
        · subst heq
          rcases hwarm with hnone | hge
          · rw [hjrt] at hnone
            cases hnone
          · rw [hjrt] at hge
            simp only [pyLtQ, decide_eq_false_iff_not, not_lt] at hge
            exact absurd hlt (not_lt.mpr hge)
    · -- continue
      simp only [runLines, hstep] at hrun
      obtain ⟨_, hjw⟩ := loopStep_cont_facts hstep
      have hwarm1 : r1.jvm_running_time = none ∨ pyLtQ r1.jvm_running_time 300 = false := by
        rcases hjw with hsame | hfalse
        · rw [hsame]
          exact hwarm
        · exact Or.inr hfalse
      exact ih hwarm1 hrun hcms t hjrt hlt
    · -- exception
      simp only [runLines, hstep] at hrun
      rcases hrun with hrun | hrun <;> cases hrun

/-- Helper: the stop-the-world classification pass never assigns
`jvm_running_time`. -/
theorem stwPhase_jrt (lines : List Line) (r : GCRecord) :
    (stwPhase lines r).jvm_running_time = r.jvm_running_time := by
  simp only [stwPhase]
  repeat' split
  all_goals rfl

/-- C6 amended: the 300-second warm-up floor invalidates exactly the
records parsed through the per-line loop: every record returned by the
parser that is neither stop-the-world nor concurrent-sweep and whose
parsed uptime is below 300 has `valid_record = false`.  Stop-the-world
stanzas never parse an uptime at all, and a concurrent-sweep stanza
`break`s out of the loop before the warm-up check, so those records can
be valid at any uptime. -/
theorem c6_amended (ts : ℚ) (lines : List Line) (r' : GCRecord)
    (hok : parseStanza ts lines = .ok r')
    (hstw : r'.is_stw_gc = false) (hcms : r'.is_cms_gc = false)
    (t : ℚ) (hjrt : r'.jvm_running_time = some t) (hlt : t < 300) :
    r'.valid_record = false := by
  unfold parseStanza at hok
  by_cases hsw : (stwPhase lines (initRecord ts)).is_stw_gc = true
  · rw [if_pos hsw] at hok
    cases hok
    rw [hsw] at hstw
    cases hstw
  · rw [if_neg hsw] at hok
    unfold parseLoop at hok
    have hwarm : (stwPhase lines (initRecord ts)).jvm_running_time = none ∨
        pyLtQ (stwPhase lines (initRecord ts)).jvm_running_time 300 = false :=
      Or.inl (stwPhase_jrt lines (initRecord ts))
    cases hr : runLines (stwPhase lines (initRecord ts)) lines with
    | cont r1 =>
      rw [hr] at hok
      cases hok
      exact runLines_warm lines hwarm (Or.inl hr) hcms t hjrt hlt
    | brk r1 =>
      rw [hr] at hok
      cases hok
      exact runLines_warm lines hwarm (Or.inr hr) hcms t hjrt hlt
    | err e =>
      rw [hr] at hok
      cases hok

/-- C6 counterexample stanza: a single concurrent-sweep line at JVM
uptime 5 seconds (far below the 300-second warm-up floor), e.g.
`2024-01-01T00:00:05.000+0000: 5.0: [CMS-concurrent-sweep: 0.01/0.02 secs] ...`. -/
def c6Lines : List Line :=
  [{ hasConcSweep := true, sweepMatch := some (5, 1 / 50) }]

/-- The record the parser produces for `c6Lines`. -/
def c6Rec : GCRecord :=
  { record_timestamp := 0
    is_cms_gc := true
    valid_record := true
    gc_type := some "CMS"
    jvm_running_time := some 5
    cms_sweep_time := some (1 / 50) }

/-- C6 counterexample: a concurrent-sweep stanza with uptime 5 < 300
yields a record with `valid_record = true` — the warm-up floor does not
apply to it, contradicting the claim that uptime below 300 invalidates
every stanza type. -/
theorem c6_cex :
    parseStanza 0 c6Lines = .ok c6Rec ∧
    c6Rec.valid_record = true ∧
    c6Rec.jvm_running_time = some 5 ∧ (5 : ℚ) < 300 := by
  with_unfolding_all decide

/-- C6 witness stanza: a plain ParNew line at uptime 200. -/
def w6Lines : List Line :=
  [{ main := .uptime 200 "ParNew" }]

/-- The record the parser produces for `w6Lines`. -/
def w6Rec : GCRecord :=
  { record_timestamp := 0
    jvm_running_time := some 200
    gc_type := some "ParNew" }

/-- C6 amended, witnessed: a non-stop-the-world record parsed at uptime
200 < 300 is invalid. -/
theorem c6_witness : w6Rec.valid_record = false :=
  c6_amended 0 w6Lines w6Rec (by with_unfolding_all decide) rfl rfl 200 rfl (by norm_num)

/-- Helper: an in-range Python index assignment succeeds and is a plain
`List.set`. -/
theorem pySetIdx_pos {α : Type} (l : List α) (i : ℤ) (x : α)
    (h0 : 0 ≤ i) (hlt : i < l.length) :
    pySetIdx l i x = some (l.set i.toNat x) := by
  unfold pySetIdx
  rw [if_pos ⟨h0, hlt⟩]

/-- Helper: Python index assignment preserves the list length. -/
theorem pySetIdx_length {α : Type} {l l2 : List α} {i : ℤ} {x : α}
    (h : pySetIdx l i x = some l2) : l2.length = l.length := by
  unfold pySetIdx at h
  by_cases h1 : 0 ≤ i ∧ i < (l.length : ℤ)
  · rw [if_pos h1] at h
    cases h
    exact List.length_set l i.toNat x
  · rw [if_neg h1] at h
    by_cases h2 : -(l.length : ℤ) ≤ i ∧ i < 0
    · rw [if_pos h2] at h
      cases h
      exact List.length_set l (i + l.length).toNat x
    · rw [if_neg h2] at h
      cases h

/-- Helper: the only statement of the parse loop that can raise is the
per-age slot assignment — an exception implies the line was an age
line. -/
theorem loopStep_err_is_age {r : GCRecord} {l : Line} {e : PyExc}
    (h : loopStep r l = .err e) : ∃ a b t, l.main = .age a b t := by
  obtain ⟨im, fr, fg, cs, sm, ss, m⟩ := l
  cases cs with
  | true =>
    cases sm with
    | some p =>
      obtain ⟨t, sweep⟩ := p
      simp only [loopStep] at h
      cases h
    | none =>
      simp only [loopStep] at h
      cases h
  | false =>
    cases m with
    | threshold dss ct mt =>
      simp only [loopStep, ite_self] at h
      by_cases hg : ¬ ((pyTruthyZ r.desired_survivor_size || pyTruthyZ r.curr_threshold
          || pyTruthyZ r.max_threshold) = true)
      · rw [if_pos hg] at h
        cases h
      · rw [if_neg hg] at h
        by_cases h3 : pyLtQ r.jvm_running_time 300 = true
        · rw [if_pos h3] at h
          cases h
        · rw [if_neg h3] at h
          cases h
    | age a bytes total => exact ⟨a, bytes, total, rfl⟩
    | realloc yb ya yt ysecs hb ha ht tsecs =>
      simp only [loopStep, ite_self] at h
      by_cases h3 : pyLtQ r.jvm_running_time 300 = true
      · rw [if_pos h3] at h
        cases h
      · rw [if_neg h3] at h
        cases h
    | uptime t ty =>
      simp only [loopStep] at h
      by_cases hg : ¬ ((pyTruthyQ r.jvm_running_time || pyTruthyS r.gc_type) = true)
      · rw [if_pos hg] at h
        by_cases h3 : pyLtQ (some t) 300 = true
        · rw [if_pos h3] at h
          cases h
        · rw [if_neg h3] at h
          cases h
      · rw [if_neg hg] at h
        by_cases h3 : pyLtQ r.jvm_running_time 300 = true
        · rw [if_pos h3] at h
          cases h
        · rw [if_neg h3] at h
          cases h
    | none =>
      simp only [loopStep, ite_self] at h
      by_cases h3 : pyLtQ r.jvm_running_time 300 = true
      · rw [if_pos h3] at h
        cases h
      · rw [if_neg h3] at h
        cases h

/-- Helper: an exception out of the whole loop implies some stanza line
is an age line. -/
theorem runLines_err_has_age {lines : List Line} :
    ∀ {r : GCRecord} {e : PyExc}, runLines r lines = .err e →
      ∃ l ∈ lines, ∃ a b t, l.main = .age a b t := by
  induction lines with
  | nil =>
    intro r e h
    cases h
  | cons l rest ih =>
    intro r e h
    rcases hstep : loopStep r l with r1 | r1 | e1
    · simp only [runLines, hstep] at h
      cases h
    · simp only [runLines, hstep] at h
      obtain ⟨l2, hl2, hage⟩ := ih h
      exact ⟨l2, List.mem_cons_of_mem l hl2, hage⟩
    · obtain ⟨a, b, t, hage⟩ := loopStep_err_is_age hstep
      exact ⟨l, List.mem_cons_self l rest, a, b, t, hage⟩

/-- Helper: a `continue` through a non-threshold line preserves the
length of the ages array (an age line overwrites a slot in place). -/
theorem loopStep_cont_ages_len {r : GCRecord} {l : Line} {r' : GCRecord}
    (h : loopStep r l = .cont r')
    (hnothr : ∀ d c m, l.main ≠ .threshold d c m) :
    r'.ages.length = r.ages.length := by
  obtain ⟨im, fr, fg, cs, sm, ss, m⟩ := l
  cases cs with
  | true =>
    cases sm with
    | some p =>
      obtain ⟨t, sweep⟩ := p
      simp only [loopStep] at h
      cases h
    | none =>
      simp only [loopStep] at h
      cases h
  | false =>
    cases m with
    | threshold dss ct mt => exact absurd rfl (hnothr dss ct mt)
    | age a bytes total =>
      simp only [loopStep, ite_self] at h
      by_cases h3 : pyLtQ r.jvm_running_time 300 = true
      · rw [if_pos h3] at h
        cases h
      · rw [if_neg h3] at h
        cases hset : pySetIdx r.ages ((a : ℤ) - 1) ((a : ℤ), (bytes : ℤ), (total : ℤ)) with
        | some ages2 =>
          rw [hset] at h
          cases h
          exact pySetIdx_length hset
        | none =>
          rw [hset] at h
          cases h
    | realloc yb ya yt ysecs hb ha ht tsecs =>
      simp only [loopStep, ite_self] at h
      by_cases h3 : pyLtQ r.jvm_running_time 300 = true
      · rw [if_pos h3] at h
        cases h
      · rw [if_neg h3] at h
        cases h
        rfl
    | uptime t ty =>
      simp only [loopStep] at h
      by_cases hg : ¬ ((pyTruthyQ r.jvm_running_time || pyTruthyS r.gc_type) = true)
      · rw [if_pos hg] at h
        by_cases h3 : pyLtQ (some t) 300 = true
        · rw [if_pos h3] at h
          cases h
        · rw [if_neg h3] at h
          cases h
          rfl
      · rw [if_neg hg] at h
        by_cases h3 : pyLtQ r.jvm_running_time 300 = true
        · rw [if_pos h3] at h
          cases h
        · rw [if_neg h3] at h
          cases h
          rfl
    | none =>
      simp only [loopStep, ite_self] at h
      by_cases h3 : pyLtQ r.jvm_running_time 300 = true
      · rw [if_pos h3] at h
        cases h
      · rw [if_neg h3] at h
        cases h
        rfl

/-- Helper: on an in-bounds age line the loop cannot raise. -/
theorem loopStep_age_no_err {r : GCRecord} {l : Line} {a bytes total : ℕ}
    (hm : l.main = .age a bytes total) (h1 : 1 ≤ a) (h2 : a ≤ r.ages.length) :
    ∀ e, loopStep r l ≠ .err e := by
  intro e h
  obtain ⟨im, fr, fg, cs, sm, ss, m⟩ := l
  simp only at hm
  subst hm
  cases cs with
  | true =>
    cases sm with
    | some p =>
      obtain ⟨t, sweep⟩ := p
      simp only [loopStep] at h
      cases h
    | none =>
      simp only [loopStep] at h
      cases h
  | false =>
    simp only [loopStep, ite_self] at h
    by_cases h3 : pyLtQ r.jvm_running_time 300 = true
    · rw [if_pos h3] at h
      cases h
    · rw [if_neg h3] at h
      rw [pySetIdx_pos r.ages ((a : ℤ) - 1) ((a : ℤ), (bytes : ℤ), (total : ℤ))
        (by omega) (by omega)] at h
      cases h

/-- Helper: the loop cannot raise while every age line is within the
bounds of the current ages array and no threshold line resizes it. -/
theorem runLines_bounded_no_err (lines : List Line) :
    ∀ {r : GCRecord},
      (∀ l ∈ lines, ∀ d c m, l.main ≠ .threshold d c m) →
      (∀ l ∈ lines, ∀ a b t, l.main = .age a b t → 1 ≤ a ∧ a ≤ r.ages.length) →
      ∀ e, runLines r lines ≠ .err e := by
  induction lines with
  | nil =>
    intro r _ _ e h
    cases h
  | cons l rest ih =>
    intro r hnothr hbound e h
    rcases hstep : loopStep r l with r1 | r1 | e1
    · simp only [runLines, hstep] at h
      cases h
    · simp only [runLines, hstep] at h
      have hlen := loopStep_cont_ages_len hstep (hnothr l (List.mem_cons_self l rest))
      exact ih (fun l2 hl2 => hnothr l2 (List.mem_cons_of_mem l hl2))
        (fun l2 hl2 a b t hm => by
          have := hbound l2 (List.mem_cons_of_mem l hl2) a b t hm
          omega) e h
    · obtain ⟨a, b, t, hm⟩ := loopStep_err_is_age hstep
      obtain ⟨h1, h2⟩ := hbound l (List.mem_cons_self l rest) a b t hm
      exact loopStep_age_no_err hm h1 h2 e1 hstep

/-- Helper: the loop over a concatenation runs the first segment and, on
fall-through, continues into the second. -/
theorem runLines_append (r : GCRecord) (l₁ l₂ : List Line) :
    runLines r (l₁ ++ l₂) =
      match runLines r l₁ with
      | .cont r1 => runLines r1 l₂
      | .brk r1 => .brk r1
      | .err e => .err e := by
  induction l₁ generalizing r with
  | nil => rfl
  | cons l rest ih =>
    simp only [List.cons_append, runLines]
    cases loopStep r l with
    | cont r1 => exact ih r1
    | brk r1 => rfl
    | err e => rfl

/-- Helper: a `continue` through a line that is neither an age nor a
threshold line preserves the ages array and the survivor-threshold
fields. -/
theorem loopStep_cont_preserve {r : GCRecord} {l : Line} {r' : GCRecord}
    (h : loopStep r l = .cont r')
    (hnoage : ∀ a b t, l.main ≠ .age a b t)
    (hnothr : ∀ d c m, l.main ≠ .threshold d c m) :
    r'.ages = r.ages ∧ r'.desired_survivor_size = r.desired_survivor_size ∧
      r'.curr_threshold = r.curr_threshold ∧ r'.max_threshold = r.max_threshold := by
  obtain ⟨im, fr, fg, cs, sm, ss, m⟩ := l
  cases cs with
  | true =>
    cases sm with
    | some p =>
      obtain ⟨t, sweep⟩ := p
      simp only [loopStep] at h
      cases h
    | none =>
      simp only [loopStep] at h
      cases h
  | false =>
    cases m with
    | threshold dss ct mt => exact absurd rfl (hnothr dss ct mt)
    | age a bytes total => exact absurd rfl (hnoage a bytes total)
    | realloc yb ya yt ysecs hb ha ht tsecs =>
      simp only [loopStep, ite_self] at h
      by_cases h3 : pyLtQ r.jvm_running_time 300 = true
      · rw [if_pos h3] at h
        cases h
      · rw [if_neg h3] at h
        cases h
        exact ⟨rfl, rfl, rfl, rfl⟩
    | uptime t ty =>
      simp only [loopStep] at h
      by_cases hg : ¬ ((pyTruthyQ r.jvm_running_time || pyTruthyS r.gc_type) = true)
      · rw [if_pos hg] at h
        by_cases h3 : pyLtQ (some t) 300 = true
        · rw [if_pos h3] at h
          cases h
        · rw [if_neg h3] at h
          cases h
          exact ⟨rfl, rfl, rfl, rfl⟩
      · rw [if_neg hg] at h
        by_cases h3 : pyLtQ r.jvm_running_time 300 = true
        · rw [if_pos h3] at h
          cases h
        · rw [if_neg h3] at h
          cases h
          exact ⟨rfl, rfl, rfl, rfl⟩
    | none =>
      simp only [loopStep, ite_self] at h
      by_cases h3 : pyLtQ r.jvm_running_time 300 = true
      · rw [if_pos h3] at h
        cases h
      · rw [if_neg h3] at h
        cases h
        exact ⟨rfl, rfl, rfl, rfl⟩

/-- Helper: falling through a segment of lines that are neither age nor
threshold lines preserves the ages array and the survivor-threshold
fields. -/
theorem runLines_preserve (pre : List Line) :
    ∀ {r r1 : GCRecord},
      (∀ l ∈ pre, (∀ a b t, l.main ≠ .age a b t) ∧ (∀ d c m, l.main ≠ .threshold d c m)) →
      runLines r pre = .cont r1 →
      r1.ages = r.ages ∧ r1.desired_survivor_size = r.desired_survivor_size ∧
        r1.curr_threshold = r.curr_threshold ∧ r1.max_threshold = r.max_threshold := by
  induction pre with
  | nil =>
    intro r r1 _ h
    cases h
    exact ⟨rfl, rfl, rfl, rfl⟩
  | cons l rest ih =>
    intro r r1 hsafe h
    rcases hstep : loopStep r l with r2 | r2 | e
    · simp only [runLines, hstep] at h
      cases h
    · simp only [runLines, hstep] at h
      obtain ⟨ha, hd, hc, hm⟩ := loopStep_cont_preserve hstep
        (hsafe l (List.mem_cons_self l rest)).1 (hsafe l (List.mem_cons_self l rest)).2
      obtain ⟨ha2, hd2, hc2, hm2⟩ := ih (fun l2 hl2 => hsafe l2 (List.mem_cons_of_mem l hl2)) h
      exact ⟨ha2.trans ha, hd2.trans hd, hc2.trans hc, hm2.trans hm⟩
    · simp only [runLines, hstep] at h
      cases h

/-- Helper: the stop-the-world pass never touches the ages array or the
survivor-threshold fields. -/
theorem stwPhase_fields (lines : List Line) (r : GCRecord) :
    (stwPhase lines r).ages = r.ages ∧
      (stwPhase lines r).desired_survivor_size = r.desired_survivor_size ∧
      (stwPhase lines r).curr_threshold = r.curr_threshold ∧
      (stwPhase lines r).max_threshold = r.max_threshold := by
  simp only [stwPhase]
  repeat' split
  all_goals exact ⟨rfl, rfl, rfl, rfl⟩

/-- Helper: processing a threshold line while the survivor-threshold
fields are still unset appends the sentinel ages and continues. -/
theorem loopStep_thr_open {r : GCRecord} {l : Line} {dss ct M : ℕ}
    (hcs : l.hasConcSweep = false) (hm : l.main = .threshold dss ct M)
    (hdss : r.desired_survivor_size = none) (hct : r.curr_threshold = none)
    (hmt : r.max_threshold = none) :
    loopStep r l = .cont { r with
      valid_record := true
      desired_survivor_size := some (dss : ℤ)
      curr_threshold := some (ct : ℤ)
      max_threshold := some (M : ℤ)
      ages := r.ages ++ (List.range' 1 M).map
        (fun a : ℕ => ((a : ℤ), (-1 : ℤ), (-1 : ℤ))) } := by
  simp only [loopStep, hcs, hm, ite_self, hdss, hct, hmt, pyTruthyZ]
  simp

/-- Helper: a line carrying the concurrent-sweep substring always breaks
the loop. -/
theorem loopStep_sweep_brk {r : GCRecord} {l : Line} (hcs : l.hasConcSweep = true) :
    ∃ r', loopStep r l = .brk r' := by
  obtain ⟨im, fr, fg, cs, sm, ss, m⟩ := l
  simp only at hcs
  subst hcs
  cases sm with
  | some p =>
    obtain ⟨t, sweep⟩ := p
    exact ⟨_, rfl⟩
  | none => exact ⟨_, rfl⟩

/-- C7 amended: constructing a `GCRecord` raises no exception on any
stanza in which every per-age line is preceded by a survivor-metadata
line and carries an age within its declared bounds `1..M`: precisely, if
either the stanza has no age line at all, or it splits as
`pre ++ [threshold line (max M)] ++ post` with no age or threshold line
in `pre`, no further threshold line in `post`, and every age line in
`post` having `1 ≤ age ≤ M`, then parsing returns a record (malformed
shapes merely leave `valid_record = false`).  An orphan or out-of-range
per-age line instead raises `IndexError` (see the counterexample). -/
theorem c7_amended (ts : ℚ) (lines : List Line)
    (hsafe : (∀ l ∈ lines, ∀ a b t, l.main ≠ .age a b t) ∨
      (∃ pre thr post, ∃ dss ct M : ℕ, lines = pre ++ thr :: post ∧
        thr.main = .threshold dss ct M ∧
        (∀ l ∈ pre, (∀ a b t, l.main ≠ .age a b t) ∧ (∀ d c m, l.main ≠ .threshold d c m)) ∧
        (∀ l ∈ post, ∀ d c m, l.main ≠ .threshold d c m) ∧
        (∀ l ∈ post, ∀ a b t, l.main = .age a b t → 1 ≤ a ∧ a ≤ M))) :
    ∃ r, parseStanza ts lines = .ok r := by
  unfold parseStanza
  by_cases hsw : (stwPhase lines (initRecord ts)).is_stw_gc = true
  · rw [if_pos hsw]
    exact ⟨_, rfl⟩
  rw [if_neg hsw]
  unfold parseLoop
  suffices hne : ∀ e, runLines (stwPhase lines (initRecord ts)) lines ≠ .err e by
    cases hr : runLines (stwPhase lines (initRecord ts)) lines with
    | cont r1 => exact ⟨r1, rfl⟩
    | brk r1 => exact ⟨r1, rfl⟩
    | err e => exact absurd hr (hne e)
  intro e herr
  rcases hsafe with hnoage | ⟨pre, thr, post, dss, ct, M, hsplit, hthr, hpre, hpost1, hpost2⟩
  · obtain ⟨l, hl, a, b, t, hage⟩ := runLines_err_has_age herr
    exact hnoage l hl a b t hage
  · subst hsplit
    rw [runLines_append] at herr
    cases hr1 : runLines (stwPhase (pre ++ thr :: post) (initRecord ts)) pre with
    | brk r1 =>
      rw [hr1] at herr
      cases herr
    | err e1 =>
      rw [hr1] at herr
      obtain ⟨l, hl, a, b, t, hage⟩ := runLines_err_has_age hr1
      exact (hpre l hl).1 a b t hage
    | cont r1 =>
      rw [hr1] at herr
      obtain ⟨hages1, hdss1, hct1, hmt1⟩ := runLines_preserve pre hpre hr1
      obtain ⟨hages0, hdss0, hct0, hmt0⟩ :=
        stwPhase_fields (pre ++ thr :: post) (initRecord ts)
      by_cases hcs : thr.hasConcSweep = true
      · obtain ⟨r2, hb⟩ := loopStep_sweep_brk (r := r1) hcs
        simp only [runLines, hb] at herr
        cases herr
      · have hcs2 : thr.hasConcSweep = false := by simpa using hcs
        have hstep := loopStep_thr_open (r := r1) hcs2 hthr
          (by rw [hdss1, hdss0]; rfl) (by rw [hct1, hct0]; rfl) (by rw [hmt1, hmt0]; rfl)
        simp only [runLines, hstep] at herr
        have hempty : r1.ages = [] := by
          rw [hages1, hages0]
          rfl
        refine runLines_bounded_no_err post hpost1 ?_ e herr
        intro l2 hl2 a b t hm
        obtain ⟨h1, h2⟩ := hpost2 l2 hl2 a b t hm
        refine ⟨h1, ?_⟩
        show a ≤ (r1.ages ++ (List.range' 1 M).map
          (fun a : ℕ => ((a : ℤ), (-1 : ℤ), (-1 : ℤ)))).length
        simp only [List.length_append, hempty, List.length_map, List.length_range',
          List.length_nil]
        omega

/-- C7 counterexample stanza: an uptime line past the warm-up floor
followed by an orphan per-age line (no preceding threshold line), e.g.
`2024-01-01T00:10:00.000+0000: 600.0: [GC [ParNew` followed by
`- age   1:          5 bytes,          5 total`. -/
def c7Lines : List Line :=
  [{ main := .uptime 600 "GC" }, { main := .age 1 5 5 }]

/-- C7 counterexample: on the orphan-age stanza the constructor raises
`IndexError` (`self.ages[age - 1]` on the empty ages list) instead of
yielding an invalid record — the parser does not tolerate all malformed
stanza shapes. -/
theorem c7_cex : parseStanza 0 c7Lines = .error .indexError := by
  with_unfolding_all decide

/-- C7 witness stanza: uptime line, threshold line (max 2), one in-range
age line. -/
def w7Lines : List Line :=
  [{ main := .uptime 600 "GC" }, { main := .threshold 1024 2 2 },
   { main := .age 1 5 5 }]

/-- C7 amended, witnessed on a concrete well-formed stanza. -/
theorem c7_witness : ∃ r, parseStanza 0 w7Lines = .ok r := by
  apply c7_amended 0 w7Lines
  refine Or.inr ⟨[{ main := .uptime 600 "GC" }], { main := .threshold 1024 2 2 },
    [{ main := .age 1 5 5 }], 1024, 2, 2, rfl, rfl, ?_, ?_, ?_⟩
  · intro l hl
    simp only [List.mem_singleton] at hl
    subst hl
    exact ⟨fun a b t hm => (by cases hm), fun d c m hm => (by cases hm)⟩
  · intro l hl d c m hm
    simp only [List.mem_singleton] at hl
    subst hl
    cases hm
  · intro l hl a b t hm
    simp only [List.mem_singleton] at hl
    subst hl
    cases hm
    exact ⟨by omega, by omega⟩

/-- The effect of one processed line on the ages array: an age line
overwrites slot `age - 1` (an out-of-range write is dropped here — the
parse would have raised instead); any other line leaves it alone. -/
def applyAgesStep (ages : List (ℤ × ℤ × ℤ)) (l : Line) : List (ℤ × ℤ × ℤ) :=
  match l.main with
  | .age a bytes total =>
      (pySetIdx ages ((a : ℤ) - 1) ((a : ℤ), (bytes : ℤ), (total : ℤ))).getD ages
  | _ => ages

/-- The cumulative effect on the ages array of processing a segment of
lines past the threshold line. -/
def applyAges (ages : List (ℤ × ℤ × ℤ)) : List Line → List (ℤ × ℤ × ℤ)
  | [] => ages
  | l :: rest => applyAges (applyAgesStep ages l) rest

/-- Helper: one line's effect preserves the ages length. -/
theorem applyAgesStep_length (ages : List (ℤ × ℤ × ℤ)) (l : Line) :
    (applyAgesStep ages l).length = ages.length := by
  cases hm : l.main with
  | age a bytes total =>
    simp only [applyAgesStep, hm]
    cases hset : pySetIdx ages ((a : ℤ) - 1) ((a : ℤ), (bytes : ℤ), (total : ℤ)) with
    | some l2 =>
      simp only [Option.getD_some]
      exact pySetIdx_length hset
    | none => rfl
  | none => simp only [applyAgesStep, hm]
  | uptime t ty => simp only [applyAgesStep, hm]
  | threshold d c m => simp only [applyAgesStep, hm]
  | realloc yb ya yt ysecs hb ha ht tsecs => simp only [applyAgesStep, hm]

/-- Helper: a segment's effect preserves the ages length. -/
theorem applyAges_length (lines : List Line) :
    ∀ ages : List (ℤ × ℤ × ℤ), (applyAges ages lines).length = ages.length := by
  induction lines with
  | nil => intro ages; rfl
  | cons l rest ih =>
    intro ages
    exact (ih (applyAgesStep ages l)).trans (applyAgesStep_length ages l)

/-- Helper: a line whose age (if any) differs from `j + 1` leaves slot
`j` untouched. -/
theorem applyAgesStep_getElem_ne (ages : List (ℤ × ℤ × ℤ)) (l : Line) (j : ℕ)
    (h : ∀ a b t, l.main = .age a b t → 1 ≤ a ∧ a ≠ j + 1) :
    (applyAgesStep ages l)[j]? = ages[j]? := by
  cases hm : l.main with
  | age a bytes total =>
    simp only [applyAgesStep, hm]
    obtain ⟨h1, hne⟩ := h a bytes total hm
    cases hset : pySetIdx ages ((a : ℤ) - 1) ((a : ℤ), (bytes : ℤ), (total : ℤ)) with
    | none => rfl
    | some l2 =>
      unfold pySetIdx at hset
      by_cases hin : (0 : ℤ) ≤ (a : ℤ) - 1 ∧ (a : ℤ) - 1 < ages.length
      · rw [if_pos hin] at hset
        cases hset
        simp only [Option.getD_some]
        exact List.getElem?_set_ne (by omega)
      · rw [if_neg hin] at hset
        rw [if_neg (by omega)] at hset
        cases hset
  | none => simp only [applyAgesStep, hm]
  | uptime t ty => simp only [applyAgesStep, hm]
  | threshold d c m => simp only [applyAgesStep, hm]
  | realloc yb ya yt ysecs hb ha ht tsecs => simp only [applyAgesStep, hm]

/-- Helper: a segment with no age line numbered `j + 1` leaves slot `j`
untouched. -/
theorem applyAges_getElem_ne (lines : List Line) :
    ∀ (ages : List (ℤ × ℤ × ℤ)) (j : ℕ),
      (∀ l ∈ lines, ∀ a b t, l.main = .age a b t → 1 ≤ a ∧ a ≠ j + 1) →
      (applyAges ages lines)[j]? = ages[j]? := by
  induction lines with
  | nil => intro ages j _; rfl
  | cons l rest ih =>
    intro ages j h
    refine ((ih (applyAgesStep ages l) j
      (fun l2 hl2 => h l2 (List.mem_cons_of_mem l hl2))).trans ?_)
    exact applyAgesStep_getElem_ne ages l j (h l (List.mem_cons_self l rest))

/-- Helper: the age line numbered `a` writes `(a, bytes, total)` into slot
`a - 1`, and — with pairwise-distinct age numbers — no later line
overwrites it. -/
theorem applyAges_getElem_seen (lines : List Line) :
    ∀ (ages : List (ℤ × ℤ × ℤ)) (l0 : Line) (a b t : ℕ),
      l0 ∈ lines → l0.main = .age a b t →
      (∀ l ∈ lines, ∀ a2 b2 t2, l.main = .age a2 b2 t2 → 1 ≤ a2 ∧ a2 ≤ ages.length) →
      List.Pairwise (fun l1 l2 => ∀ a1 b1 t1 a2 b2 t2,
        l1.main = .age a1 b1 t1 → l2.main = .age a2 b2 t2 → a1 ≠ a2) lines →
      (applyAges ages lines)[a - 1]? = some ((a : ℤ), (b : ℤ), (t : ℤ)) := by
  induction lines with
  | nil =>
    intro ages l0 a b t hmem
    cases hmem
  | cons l rest ih =>
    intro ages l0 a b t hmem hage hbound hpw
    rcases List.mem_cons.mp hmem with heq | hmem2
    · subst heq
      obtain ⟨h1, h2⟩ := hbound l0 (List.mem_cons_self l0 rest) a b t hage
      have hstep : applyAgesStep ages l0 =
          ages.set (a - 1) ((a : ℤ), (b : ℤ), (t : ℤ)) := by
        simp only [applyAgesStep, hage]
        rw [pySetIdx_pos ages ((a : ℤ) - 1) _ (by omega) (by omega)]
        simp only [Option.getD_some]
        congr 1
        omega
      show (applyAges (applyAgesStep ages l0) rest)[a - 1]? = _
      rw [applyAges_getElem_ne rest (applyAgesStep ages l0) (a - 1) ?_]
      · rw [hstep]
        rw [List.getElem?_set_eq_of_lt _ (by omega)]
      · intro l2 hl2 a2 b2 t2 hm2
        obtain ⟨h12, _⟩ := hbound l2 (List.mem_cons_of_mem l0 hl2) a2 b2 t2 hm2
        have hne := (List.pairwise_cons.mp hpw).1 l2 hl2 a b t a2 b2 t2 hage hm2
        exact ⟨h12, by omega⟩
    · show (applyAges (applyAgesStep ages l) rest)[a - 1]? = _
      refine ih (applyAgesStep ages l) l0 a b t hmem2 hage ?_
        (List.pairwise_cons.mp hpw).2
      intro l2 hl2 a2 b2 t2 hm2
      have := hbound l2 (List.mem_cons_of_mem l hl2) a2 b2 t2 hm2
      rw [applyAgesStep_length]
      exact this

/-- Helper: a warm (uptime at least 300) record steps through any
non-sweep, non-threshold line by `continue`, transforming its ages array
exactly by `applyAgesStep`. -/
theorem loopStep_warm_cont {r : GCRecord} {l : Line}
    (hcs : l.hasConcSweep = false)
    (hnothr : ∀ d c m, l.main ≠ .threshold d c m)
    (hwarm : pyLtQ r.jvm_running_time 300 = false)
    (hbound : ∀ a b t, l.main = .age a b t → 1 ≤ a ∧ a ≤ r.ages.length) :
    ∃ r1, loopStep r l = .cont r1 ∧ r1.ages = applyAgesStep r.ages l ∧
      pyLtQ r1.jvm_running_time 300 = false := by
  obtain ⟨q, hq, hq300⟩ : ∃ q, r.jvm_running_time = some q ∧ ¬ q < 300 := by
    cases hj : r.jvm_running_time with
    | none =>
      rw [hj] at hwarm
      simp [pyLtQ] at hwarm
    | some q =>
      rw [hj] at hwarm
      refine ⟨q, rfl, ?_⟩
      simpa [pyLtQ] using hwarm
  have hq0 : q ≠ 0 := by
    intro h0
    apply hq300
    rw [h0]
    norm_num
  have htr : pyTruthyQ r.jvm_running_time = true := by
    rw [hq]
    simp [pyTruthyQ, hq0]
  have hnot300 : ¬ (pyLtQ r.jvm_running_time 300 = true) := by simp [hwarm]
  have hguard : ¬ ¬ ((pyTruthyQ r.jvm_running_time || pyTruthyS r.gc_type) = true) :=
    not_not_intro (by simp [htr])
  obtain ⟨im, fr, fg, cs, sm, ss, m⟩ := l
  simp only at hcs
  subst hcs
  cases m with
  | threshold d c mt => exact absurd rfl (hnothr d c mt)
  | age a bytes total =>
    obtain ⟨h1, h2⟩ := hbound a bytes total rfl
    refine ⟨{ r with ages := r.ages.set ((a : ℤ) - 1).toNat ((a : ℤ), (bytes : ℤ), (total : ℤ)) }, ?_, ?_, hwarm⟩
    · simp only [loopStep, ite_self, Bool.false_eq_true, if_false]
      rw [if_neg hnot300]
      rw [pySetIdx_pos r.ages ((a : ℤ) - 1) _ (by omega) (by omega)]
    · simp only [applyAgesStep]
      rw [pySetIdx_pos r.ages ((a : ℤ) - 1) _ (by omega) (by omega)]
      rfl
  | uptime t ty =>
    refine ⟨r, ?_, rfl, hwarm⟩
    simp only [loopStep, Bool.false_eq_true, if_false]
    rw [if_neg hguard]
    rw [if_neg hnot300]
  | realloc yb ya yt ysecs hb ha ht tsecs =>
    refine ⟨applyRealloc r yb ya yt ysecs hb ha ht tsecs, ?_, rfl, hwarm⟩
    simp only [loopStep, ite_self, Bool.false_eq_true, if_false]
    rw [if_neg hnot300]
  | none =>
    refine ⟨r, ?_, rfl, hwarm⟩
    simp only [loopStep, ite_self, Bool.false_eq_true, if_false]
    rw [if_neg hnot300]

/-- Helper: a warm record runs a whole segment of non-sweep,
non-threshold lines with in-bounds ages to completion, transforming its
ages array exactly by `applyAges`. -/
theorem runLines_apply_ages (lines : List Line) :
    ∀ {r : GCRecord},
      pyLtQ r.jvm_running_time 300 = false →
      (∀ l ∈ lines, l.hasConcSweep = false) →
      (∀ l ∈ lines, ∀ d c m, l.main ≠ .threshold d c m) →
      (∀ l ∈ lines, ∀ a b t, l.main = .age a b t → 1 ≤ a ∧ a ≤ r.ages.length) →
      ∃ r2, runLines r lines = .cont r2 ∧ r2.ages = applyAges r.ages lines := by
  induction lines with
  | nil =>
    intro r _ _ _ _
    exact ⟨r, rfl, rfl⟩
  | cons l rest ih =>
    intro r hwarm hplain hnothr hbound
    obtain ⟨r1, hstep, hages, hwarm1⟩ := loopStep_warm_cont
      (hplain l (List.mem_cons_self l rest))
      (hnothr l (List.mem_cons_self l rest)) hwarm
      (hbound l (List.mem_cons_self l rest))
    obtain ⟨r2, hrun, hages2⟩ := ih hwarm1
      (fun l2 hl2 => hplain l2 (List.mem_cons_of_mem l hl2))
      (fun l2 hl2 => hnothr l2 (List.mem_cons_of_mem l hl2))
      (fun l2 hl2 a b t hm => by
        rw [hages, applyAgesStep_length]
        exact hbound l2 (List.mem_cons_of_mem l hl2) a b t hm)
    refine ⟨r2, ?_, ?_⟩
    · simp only [runLines, hstep]
      exact hrun
    · rw [hages2, hages]
      rfl

/-- Helper: with none of the stop-the-world markers present, the
stop-the-world pass is the identity. -/
theorem stwPhase_id (lines : List Line) (r : GCRecord)
    (h : ∀ l ∈ lines, l.hasCMSInitialMark = false ∧ l.hasCMSFinalRemark = false ∧
      l.hasFullGC = false) :
    stwPhase lines r = r := by
  have h1 : lines.any (·.hasCMSInitialMark) = false :=
    List.any_eq_false.mpr (fun l hl => by simp [(h l hl).1])
  have h2 : lines.any (·.hasCMSFinalRemark) = false :=
    List.any_eq_false.mpr (fun l hl => by simp [(h l hl).2.1])
  have h3 : lines.any (·.hasFullGC) = false :=
    List.any_eq_false.mpr (fun l hl => by simp [(h l hl).2.2])
  simp only [stwPhase, h1, h2, h3, Bool.false_eq_true, if_false]

/-- Helper: the first line of a fresh stanza, matching the
timestamp-prefix regex with a warm uptime, sets the uptime and GC type
and falls through to the next line. -/
theorem loopStep_uptime_open {r : GCRecord} {l : Line} {t : ℚ} {ty : String}
    (hcs : l.hasConcSweep = false) (hm : l.main = .uptime t ty)
    (hjrt : r.jvm_running_time = none) (hty : r.gc_type = none)
    (h300 : ¬ t < 300) :
    loopStep r l = .cont { r with jvm_running_time := some t, gc_type := some ty } := by
  simp only [loopStep, hcs, hm, hjrt, hty, pyTruthyQ, pyTruthyS]
  simp [pyLtQ, h300]

/-- Helper: the sentinel slot `j` of the pre-filled ages array. -/
theorem sentinel_getElem (M j : ℕ) (hj : j < M) :
    ((List.range' 1 M).map (fun a : ℕ => ((a : ℤ), (-1 : ℤ), (-1 : ℤ))))[j]? =
      some (((j : ℤ) + 1), (-1 : ℤ), (-1 : ℤ)) := by
  rw [List.getElem?_map, List.getElem?_range' _ _ hj]
  simp only [Option.map_some']
  congr 2
  push_cast
  ring

/-- Helper: processing a threshold line on a record with unset survivor
fields and empty ages, in existential form recording the resulting ages
array (exactly the sentinel prefill) and the untouched uptime. -/
theorem loopStep_thr_props {r : GCRecord} {l : Line} {dss ct M : ℕ}
    (hcs : l.hasConcSweep = false) (hm : l.main = .threshold dss ct M)
    (hdss : r.desired_survivor_size = none) (hct : r.curr_threshold = none)
    (hmt : r.max_threshold = none) (hages : r.ages = []) :
    ∃ r2, loopStep r l = .cont r2 ∧
      r2.ages = (List.range' 1 M).map (fun a : ℕ => ((a : ℤ), (-1 : ℤ), (-1 : ℤ))) ∧
      r2.jvm_running_time = r.jvm_running_time := by
  refine ⟨_, loopStep_thr_open hcs hm hdss hct hmt, ?_, rfl⟩
  show r.ages ++ _ = _
  rw [hages]
  exact List.nil_append _

/-- C4 amended: the claimed shape of the parsed ages array holds for the
well-formed stanzas the parser is written for — a warm (uptime at least
300 s) timestamp line, then a single survivor-metadata line declaring
`max M`, then lines with no further survivor-metadata line, every per-age
line carrying an age `A` with `1 ≤ A ≤ M` and distinct per-age lines
carrying distinct ages: the record parses, its ages list has length
exactly `M`, each per-age line `- age A: B bytes, T total` populates slot
`A - 1` with `(A, B, T)`, and every slot whose age was not seen holds the
sentinel `(age, -1, -1)`.  Outside these conditions the claim fails (see
the counterexample: an age-0 line silently overwrites the last slot via
Python negative indexing). -/
theorem c4_amended (ts t : ℚ) (ty : String) (up thr : Line) (rest : List Line)
    (dss ct M : ℕ)
    (hstw : ∀ l ∈ up :: thr :: rest,
      l.hasCMSInitialMark = false ∧ l.hasCMSFinalRemark = false ∧
      l.hasFullGC = false ∧ l.hasConcSweep = false)
    (hup : up.main = .uptime t ty) (h300 : ¬ t < 300)
    (hthr : thr.main = .threshold dss ct M)
    (hnothr : ∀ l ∈ rest, ∀ d c m, l.main ≠ .threshold d c m)
    (hbound : ∀ l ∈ rest, ∀ a b t2, l.main = .age a b t2 → 1 ≤ a ∧ a ≤ M)
    (hdist : List.Pairwise (fun l1 l2 => ∀ a1 b1 t1 a2 b2 t2,
      l1.main = .age a1 b1 t1 → l2.main = .age a2 b2 t2 → a1 ≠ a2) rest) :
    ∃ r, parseStanza ts (up :: thr :: rest) = .ok r ∧
      r.ages.length = M ∧
      (∀ l ∈ rest, ∀ a b t2, l.main = .age a b t2 →
        r.ages[a - 1]? = some ((a : ℤ), (b : ℤ), (t2 : ℤ))) ∧
      (∀ j, j < M → (∀ l ∈ rest, ∀ a b t2, l.main = .age a b t2 → a ≠ j + 1) →
        r.ages[j]? = some ((j : ℤ) + 1, (-1 : ℤ), (-1 : ℤ))) := by
  have hid := stwPhase_id (up :: thr :: rest) (initRecord ts)
    (fun l hl => ⟨(hstw l hl).1, (hstw l hl).2.1, (hstw l hl).2.2.1⟩)
  have hcsu : up.hasConcSweep = false :=
    (hstw up (List.mem_cons_self up (thr :: rest))).2.2.2
  have hcst : thr.hasConcSweep = false :=
    (hstw thr (List.mem_cons_of_mem up (List.mem_cons_self thr rest))).2.2.2
  have hstep1 := loopStep_uptime_open (r := initRecord ts) hcsu hup rfl rfl h300
  obtain ⟨r2, hstep2, hages2, hjrt2⟩ := loopStep_thr_props (r := { initRecord ts with jvm_running_time := some t, gc_type := some ty }) hcst hthr rfl rfl rfl rfl
  have hjt : r2.jvm_running_time = some t := hjrt2
  have hwarm2 : pyLtQ r2.jvm_running_time 300 = false := by
    rw [hjt]
    simp [pyLtQ, h300]
  have hlen2 : r2.ages.length = M := by
    rw [hages2]
    simp [List.length_range']
  have hbnd2 : ∀ l ∈ rest, ∀ a b t2, l.main = .age a b t2 →
      1 ≤ a ∧ a ≤ r2.ages.length := by
    intro l hl a b t2 hm
    rw [hlen2]
    exact hbound l hl a b t2 hm
  have hplain : ∀ l ∈ rest, l.hasConcSweep = false :=
    fun l hl => (hstw l (List.mem_cons_of_mem up (List.mem_cons_of_mem thr hl))).2.2.2
  obtain ⟨r3, hrun, hages3⟩ := runLines_apply_ages rest hwarm2 hplain hnothr hbnd2
  have hrunAll : runLines (stwPhase (up :: thr :: rest) (initRecord ts))
      (up :: thr :: rest) = .cont r3 := by
    rw [hid]
    simp only [runLines, hstep1, hstep2]
    exact hrun
  refine ⟨r3, ?_, ?_, ?_, ?_⟩
  · unfold parseStanza
    have hnf : (initRecord ts).is_stw_gc = false := rfl
    have hnot : ¬ ((stwPhase (up :: thr :: rest) (initRecord ts)).is_stw_gc = true) := by
      rw [hid, hnf]
      exact Bool.false_ne_true
    rw [if_neg hnot]
    unfold parseLoop
    rw [hrunAll]
  · rw [hages3, applyAges_length rest r2.ages, hlen2]
  · intro l hl a b t2 hm
    rw [hages3]
    exact applyAges_getElem_seen rest r2.ages l a b t2 hl hm hbnd2 hdist
  · intro j hj hunseen
    have hside : ∀ l ∈ rest, ∀ a b t2, l.main = .age a b t2 → 1 ≤ a ∧ a ≠ j + 1 := by
      intro l hl a b t2 hm
      exact ⟨(hbound l hl a b t2 hm).1, hunseen l hl a b t2 hm⟩
    rw [hages3, applyAges_getElem_ne rest r2.ages j hside, hages2]
    exact sentinel_getElem M j hj

/-- C4 counterexample stanza: a warm uptime line, a survivor-metadata
line declaring `max 2`, and a per-age line `- age 0: 5 bytes, 5 total`
(HotSpot emits age 0 lines in some configurations). -/
def c4Lines : List Line :=
  [{ main := .uptime 500 "ParNew" }, { main := .threshold 1310720 2 2 },
   { main := .age 0 5 5 }]

/-- C4 counterexample: on the age-0 stanza the record parses with
`max_threshold = 2` and ages `[(1, -1, -1), (0, 5, 5)]` — the age-0 line
wrote slot `0 - 1 = -1`, which Python list indexing wraps around to the
LAST slot.  Age 2 was never seen, yet slot 1 does not hold the sentinel
`(2, -1, -1)`: the claimed "slot A-1 holds (A, bytes, total), unseen
slots hold the sentinel" shape is violated. -/
theorem c4_cex :
    (parseStanza 0 c4Lines).toOption.map (fun r => (r.max_threshold, r.ages)) =
      some (some 2, [((1 : ℤ), (-1 : ℤ), (-1 : ℤ)), ((0 : ℤ), (5 : ℤ), (5 : ℤ))]) ∧
    (parseStanza 0 c4Lines).toOption.map (fun r => r.ages[1]?) ≠
      some (some ((2 : ℤ), (-1 : ℤ), (-1 : ℤ))) := by
  with_unfolding_all decide

/-- C4 witness stanza, first line: warm uptime. -/
def w4Up : Line := { main := .uptime 600 "ParNew" }

/-- C4 witness stanza, second line: survivor metadata with `max 3`. -/
def w4Thr : Line := { main := .threshold 1024 2 3 }

/-- C4 witness stanza, remaining lines: one in-range per-age line. -/
def w4Rest : List Line := [{ main := .age 2 7 9 }]

/-- C4 amended, witnessed on a concrete well-formed stanza: the parsed
ages list has length 3, the seen slot 1 holds `(2, 7, 9)`, and unseen
slots hold the sentinels. -/
theorem c4_witness :
    ∃ r, parseStanza 0 (w4Up :: w4Thr :: w4Rest) = .ok r ∧
      r.ages.length = 3 ∧
      (∀ l ∈ w4Rest, ∀ a b t2, l.main = .age a b t2 →
        r.ages[a - 1]? = some ((a : ℤ), (b : ℤ), (t2 : ℤ))) ∧
      (∀ j, j < 3 → (∀ l ∈ w4Rest, ∀ a b t2, l.main = .age a b t2 → a ≠ j + 1) →
        r.ages[j]? = some ((j : ℤ) + 1, (-1 : ℤ), (-1 : ℤ))) := by
  apply c4_amended 0 600 "ParNew" w4Up w4Thr w4Rest 1024 2 3
  · decide
  · rfl
  · decide
  · rfl
  · intro l hl d c m hm
    simp only [w4Rest, List.mem_singleton] at hl
    subst hl
    cases hm
  · intro l hl a b t2 hm
    simp only [w4Rest, List.mem_singleton] at hl
    subst hl
    cases hm
    exact ⟨by omega, by omega⟩
  · simp [w4Rest]
